import Mathlib

/-!
Verification development for the NMS-Helper crafting/planning core.

This file shallowly embeds the two algorithmic cores of the repository:

* the refiner planning engine of `src/lib/refinerPlanner.ts`
  (recipe index lookup, recipe selection, recursive tree expansion with
  depth/cycle/category guards, result assembly, and the module-level
  plan cache), and
* the layout scoring/optimization engine of `src/lib/planner.ts`
  (adjacency scorer, greedy seeding, randomized pairwise-swap hill climb).

Modelling conventions:
* JavaScript numbers that only ever hold game quantities, run counts,
  depths and times are modelled as `Nat`; `Math.ceil(n / q)` on such
  values is `(n + q - 1) / q` in natural-number division (equal to the
  real ceiling for every `q > 0`).
* Module values, adjacency weights and supercharge multipliers are
  modelled as `Rat` so that `Math.round` (half towards positive
  infinity, i.e. `Int.floor (x + 1/2)`) is exact.
* A JavaScript `Map`/object used read-only is modelled as a lookup
  function into `Option`; the mutable plan cache and the insertion
  ordered `Map` accumulator of `collectBaseMaterials` are modelled as
  association lists with JavaScript `Map.set` update semantics
  (replace in place, else append).
* `Set<string>` is modelled as a duplicate-free `List String` with
  insertion-order `add`.
* The ambient `Math.random` stream of the optimizer is modelled as an
  explicit list of index pairs, one pair per loop iteration; the
  re-roll loop that forces the two indices to be distinct is modelled
  by only acting on in-range distinct pairs.
* The mutable cache of `planRefiner` is modelled by explicit state
  passing: the function takes the cache before the call and returns it
  after the call.
-/

/-! ## Data model (src/types.ts) -/

/-- Input line of a canonical recipe: `{ item, qty }`. -/
structure RecipeInput where
  item : String
  qty : Nat
deriving DecidableEq

/-- Canonical production rule, from `src/types.ts` (`CanonicalRecipe`):
id, optional display name, output item id, output batch size, refiner
class, processing time per run, input list, lock flag. -/
structure CanonicalRecipe where
  id : String
  name : Option String
  output : String
  quantity : Nat
  refiner : String
  time_s : Nat
  inputs : List RecipeInput
  locked : Bool
deriving DecidableEq

/-- The item-to-category map (`ItemCategoryMap`), read-only. -/
def ItemCategoryMap : Type := String → Option String

/-- The canonical index `Map<string, CanonicalRecipe[]>`, read-only. -/
def CanonicalIndex : Type := String → Option (List CanonicalRecipe)

/-! ## Refiner planner (src/lib/refinerPlanner.ts) -/

/-- Resolution mode of the refiner planner. -/
inductive RefinerPlannerMode where
  | strict
  | synthesis
deriving DecidableEq

/-- Planner target: item id, desired quantity, optional pinned recipe. -/
structure PlannerTarget where
  itemId : String
  quantity : Nat
  recipeId : Option String
deriving DecidableEq

/-- One `{ itemId, qty }` entry (step input or base material). -/
structure QtyEntry where
  itemId : String
  qty : Nat
deriving DecidableEq

/-- A flattened plan step of the refiner planner. -/
structure PlannerStep where
  recipe : CanonicalRecipe
  depth : Nat
  runs : Nat
  timeSeconds : Nat
  outputQty : Nat
  inputs : List QtyEntry
deriving DecidableEq

/-- The planner result snapshot. -/
structure PlannerResult where
  mode : RefinerPlannerMode
  targetQty : Nat
  outputQty : Nat
  totalTimeSeconds : Nat
  steps : List PlannerStep
  baseMaterials : List QtyEntry
  recipeId : String
deriving DecidableEq

/-- Errors thrown by `planRefiner`: the typed
`MissingCanonicalRecipeError(itemId)` and the generic `Error(message)`
thrown by `selectRecipe` for a pinned recipe id that is absent. -/
inductive PlanError where
  | missingCanonicalRecipe (itemId : String)
  | genericError (message : String)
deriving DecidableEq

/-- Internal expansion tree node (`PlanNode`). -/
inductive PlanNode where
  | mk (itemId : String) (desiredQty actualQty runs timeSeconds depth : Nat)
      (recipe : Option CanonicalRecipe) (children : List PlanNode)

def PlanNode.itemId : PlanNode → String
  | .mk i _ _ _ _ _ _ _ => i

def PlanNode.desiredQty : PlanNode → Nat
  | .mk _ d _ _ _ _ _ _ => d

def PlanNode.actualQty : PlanNode → Nat
  | .mk _ _ a _ _ _ _ _ => a

def PlanNode.runs : PlanNode → Nat
  | .mk _ _ _ r _ _ _ _ => r

def PlanNode.timeSeconds : PlanNode → Nat
  | .mk _ _ _ _ t _ _ _ => t

def PlanNode.depth : PlanNode → Nat
  | .mk _ _ _ _ _ d _ _ => d

def PlanNode.recipe : PlanNode → Option CanonicalRecipe
  | .mk _ _ _ _ _ _ r _ => r

def PlanNode.children : PlanNode → List PlanNode
  | .mk _ _ _ _ _ _ _ c => c

/-- Insert for the stable sort below: `x` goes in front of the first
element it may stay before. -/
def sortInsert {α : Type} (le : α → α → Bool) (x : α) : List α → List α
  | [] => [x]
  | y :: ys => if le x y then x :: y :: ys else y :: sortInsert le x ys

/-- JavaScript `Array.prototype.sort` with a comparator `c` is a stable
sort of the list by the total preorder `le a b := c(a, b) ≤ 0`.  A
stable sort of a list by a total preorder is unique, so this
structurally recursive insertion sort computes exactly the array the
source builds. -/
def stableSort {α : Type} (le : α → α → Bool) : List α → List α
  | [] => []
  | x :: xs => sortInsert le x (stableSort le xs)

/-- `new Set(visited); add(x)`: insertion-ordered set add. -/
def setAdd (s : List String) (x : String) : List String :=
  if s.contains x then s else s ++ [x]

/-- The comparator `recipeSort` as a boolean "may stay before"
relation: fewer inputs first, then shorter time, then display name
(name, falling back to the output id) ascending. -/
def recipeSortLE (a b : CanonicalRecipe) : Bool :=
  if a.inputs.length = b.inputs.length then
    if a.time_s = b.time_s then
      decide ((a.name.getD a.output) ≤ (b.name.getD b.output))
    else decide (a.time_s < b.time_s)
  else decide (a.inputs.length < b.inputs.length)

/-- `selectRecipe`: a pinned id must match a candidate, else the
generic dataset error; with no pin, the first candidate of a sorted
copy of the list wins.  The empty-auto branch is unreachable from
`planRefiner`, which checks the candidate list is non-empty first. -/
def selectRecipe (recipes : List CanonicalRecipe) (recipeId : Option String) :
    Except PlanError CanonicalRecipe :=
  match recipeId with
  | some rid =>
    match recipes.find? (fun r => r.id == rid) with
    | some m => .ok m
    | none => .error (.genericError ("Recipe " ++ rid ++ " is not present in the canonical dataset"))
  | none =>
    match (stableSort recipeSortLE recipes).head? with
    | some r => .ok r
    | none => .error (.genericError "no candidate recipe")

/-- `collectCategories`: the categories mapped to the direct inputs of
a recipe, as an insertion-ordered set. -/
def collectCategories (recipe : CanonicalRecipe) (categories : ItemCategoryMap) :
    List String :=
  recipe.inputs.foldl (fun allowed input =>
    match categories input.item with
    | some category => setAdd allowed category
    | none => allowed) []

/-- `createBaseNode`: a leaf node (base material). -/
def createBaseNode (itemId : String) (qty depth : Nat) : PlanNode :=
  .mk itemId qty qty 0 0 depth none []

/-- `shouldAllowRecipe`: with an empty allowed set there is no
restriction; otherwise every input must have no mapped category or a
category inside the allowed set. -/
def shouldAllowRecipe (recipe : CanonicalRecipe) (allowedCategories : List String)
    (categories : ItemCategoryMap) : Bool :=
  if allowedCategories.isEmpty then true
  else recipe.inputs.all (fun input =>
    match categories input.item with
    | none => true
    | some category => allowedCategories.contains category)

/-- Fuelled form of `buildNodeForItem`, structurally recursive on the
fuel: the depth guard, the cycle guard, the missing/empty candidate
guard and the category guard each force a leaf; otherwise the first
viable candidate is expanded with the body of `buildRecipeNode`
inlined (the recursion of the source terminates because the depth
grows by one at each level and the depth guard cuts every branch off
at `maxDepth`; the fuel makes that measure explicit).  At fuel zero
the node is a leaf, which agrees with the source whenever
`fuel = maxDepth + 1 - depth` (fuel zero then means `depth > maxDepth`,
and the depth guard of the source returns the same leaf). -/
def buildNodeForItemF : Nat → String → Nat → Nat → Nat → CanonicalIndex →
    List String → ItemCategoryMap → List String → PlanNode
  | 0, itemId, quantity, depth, _, _, _, _, _ => createBaseNode itemId quantity depth
  | fuel + 1, itemId, quantity, depth, maxDepth, canonicalIndex,
      allowedCategories, categories, visited =>
    if maxDepth < depth then createBaseNode itemId quantity depth
    else if visited.contains itemId then createBaseNode itemId quantity depth
    else
      match canonicalIndex itemId with
      | none => createBaseNode itemId quantity depth
      | some options =>
        if options.isEmpty then createBaseNode itemId quantity depth
        else
          match options.filter (fun c => shouldAllowRecipe c allowedCategories categories) with
          | [] => createBaseNode itemId quantity depth
          | selected :: _ =>
            let runs := max 1 ((quantity + selected.quantity - 1) / selected.quantity)
            let actualQty := runs * selected.quantity
            let timeSeconds := selected.time_s * runs
            let nextVisited := setAdd visited selected.output
            .mk selected.output quantity actualQty runs timeSeconds depth (some selected)
              (selected.inputs.map (fun input =>
                buildNodeForItemF fuel input.item (input.qty * runs) (depth + 1) maxDepth
                  canonicalIndex allowedCategories categories nextVisited))

/-- Fuelled form of `buildRecipeNode`; its body is what the last
branch of `buildNodeForItemF` inlines. -/
def buildRecipeNodeF (fuel : Nat) (recipe : CanonicalRecipe)
    (desiredQty depth maxDepth : Nat) (canonicalIndex : CanonicalIndex)
    (allowedCategories : List String) (categories : ItemCategoryMap)
    (visited : List String) : PlanNode :=
  let runs := max 1 ((desiredQty + recipe.quantity - 1) / recipe.quantity)
  let actualQty := runs * recipe.quantity
  let timeSeconds := recipe.time_s * runs
  let nextVisited := setAdd visited recipe.output
  let children := recipe.inputs.map (fun input =>
    buildNodeForItemF fuel input.item (input.qty * runs) (depth + 1) maxDepth
      canonicalIndex allowedCategories categories nextVisited)
  .mk recipe.output desiredQty actualQty runs timeSeconds depth (some recipe) children

/-- `buildNodeForItem` of the source: the fuel `maxDepth + 1 - depth`
is exactly the number of further expansion levels the depth guard
allows. -/
def buildNodeForItem (itemId : String) (quantity depth maxDepth : Nat)
    (canonicalIndex : CanonicalIndex) (allowedCategories : List String)
    (categories : ItemCategoryMap) (visited : List String) : PlanNode :=
  buildNodeForItemF (maxDepth + 1 - depth) itemId quantity depth maxDepth
    canonicalIndex allowedCategories categories visited

/-- `buildRecipeNode` of the source. -/
def buildRecipeNode (recipe : CanonicalRecipe) (desiredQty depth maxDepth : Nat)
    (canonicalIndex : CanonicalIndex) (allowedCategories : List String)
    (categories : ItemCategoryMap) (visited : List String) : PlanNode :=
  buildRecipeNodeF (maxDepth - depth) recipe desiredQty depth maxDepth
    canonicalIndex allowedCategories categories visited

/-- JavaScript `Map.set` on an association list keyed by `itemId`:
replace the existing entry in place, else append. -/
def setQty : List QtyEntry → String → Nat → List QtyEntry
  | [], item, q => [⟨item, q⟩]
  | e :: rest, item, q =>
    if e.itemId = item then ⟨item, q⟩ :: rest else e :: setQty rest item q

/-- `acc.get(itemId) ?? 0`. -/
def getQtyD (acc : List QtyEntry) (item : String) : Nat :=
  ((acc.find? (fun e => e.itemId == item)).map (fun e => e.qty)).getD 0

/-- One `acc.set(node.itemId, current + node.actualQty)` update. -/
def upsertQty (acc : List QtyEntry) (item : String) (q : Nat) : List QtyEntry :=
  setQty acc item (getQtyD acc item + q)

mutual

/-- `collectBaseMaterials`: a node with no recipe or no children is a
leaf and contributes its `actualQty`; otherwise recurse. -/
def collectBaseMaterials : PlanNode → List QtyEntry → List QtyEntry
  | .mk itemId _ actualQty _ _ _ recipe children, acc =>
    if recipe.isNone || children.isEmpty then upsertQty acc itemId actualQty
    else collectBaseMaterialsList children acc

def collectBaseMaterialsList : List PlanNode → List QtyEntry → List QtyEntry
  | [], acc => acc
  | n :: rest, acc => collectBaseMaterialsList rest (collectBaseMaterials n acc)

end

mutual

/-- `collectSteps`: every node carrying a recipe appends one step, then
the children are visited in order. -/
def collectSteps : PlanNode → List PlannerStep → List PlannerStep
  | .mk _ _ actualQty runs timeSeconds depth recipe children, steps =>
    collectStepsList children
      (match recipe with
       | some r =>
         steps ++ [⟨r, depth, runs, timeSeconds, actualQty,
           r.inputs.map (fun input => ⟨input.item, input.qty * runs⟩)⟩]
       | none => steps)

def collectStepsList : List PlanNode → List PlannerStep → List PlannerStep
  | [], steps => steps
  | n :: rest, steps => collectStepsList rest (collectSteps n steps)

end

/-- The comparator of `buildResultFromNode` on steps: ascending depth,
then recipe id. -/
def stepSortLE (a b : PlannerStep) : Bool :=
  if a.depth = b.depth then decide (a.recipe.id ≤ b.recipe.id)
  else decide (a.depth < b.depth)

/-- `buildResultFromNode`. -/
def buildResultFromNode (node : PlanNode) (mode : RefinerPlannerMode) : PlannerResult :=
  let baseMaterials := collectBaseMaterials node []
  let steps := stableSort stepSortLE (collectSteps node [])
  let totalTime := steps.foldl (fun sum step => sum + step.timeSeconds) 0
  { mode := mode
    targetQty := node.desiredQty
    outputQty := node.actualQty
    totalTimeSeconds := totalTime
    steps := steps
    baseMaterials := baseMaterials
    recipeId := (node.recipe.map (fun r => r.id)).getD "" }

/-- `planStrict`: depth limit forced to zero. -/
def planStrict (recipe : CanonicalRecipe) (quantity : Nat)
    (canonicalIndex : CanonicalIndex) (categories : ItemCategoryMap) : PlannerResult :=
  let allowed := collectCategories recipe categories
  buildResultFromNode
    (buildRecipeNode recipe quantity 0 0 canonicalIndex allowed categories []) .strict

/-- `planSynthesis`. -/
def planSynthesis (recipe : CanonicalRecipe) (quantity : Nat)
    (canonicalIndex : CanonicalIndex) (categories : ItemCategoryMap)
    (maxDepth : Nat) : PlannerResult :=
  let allowed := collectCategories recipe categories
  buildResultFromNode
    (buildRecipeNode recipe quantity 0 maxDepth canonicalIndex allowed categories []) .synthesis

/-- The planner configuration record. -/
structure PlannerConfig where
  mode : RefinerPlannerMode
  canonicalIndex : CanonicalIndex
  categories : ItemCategoryMap
  maxDepth : Option Nat

/-- The module-level plan cache, modelled as explicit state. -/
def PlanCache : Type := List (String × PlannerResult)

/-- `cache.get(key)`. -/
def cacheGet (cache : PlanCache) (key : String) : Option PlannerResult :=
  ((cache.find? (fun e => e.1 == key)).map (fun e => e.2))

/-- `cache.set(key, result)`. -/
def cacheSet : PlanCache → String → PlannerResult → PlanCache
  | [], key, r => [(key, r)]
  | e :: rest, key, r =>
    if e.1 = key then (key, r) :: rest else e :: cacheSet rest key r

/-- The string the mode contributes to the cache key. -/
def modeStr : RefinerPlannerMode → String
  | .strict => "strict"
  | .synthesis => "synthesis"

/-- The composite cache key of `planRefiner`: mode, target item id,
quantity, pinned recipe id (or `auto`) and the resolved depth limit.
The canonical index and the category map are not part of the key. -/
def cacheKey (mode : RefinerPlannerMode) (target : PlannerTarget) (maxDepth : Nat) : String :=
  modeStr mode ++ ":" ++ target.itemId ++ ":" ++ toString target.quantity ++ ":"
    ++ (target.recipeId.getD "auto") ++ ":" ++ toString maxDepth

/-- The default depth limit: 2 in synthesis mode, 0 in strict mode. -/
def defaultMaxDepth : RefinerPlannerMode → Nat
  | .synthesis => 2
  | .strict => 0

/-- `planRefiner`, with the module-level cache passed and returned
explicitly.  On the pure value level `cloneResult` is the identity
(the reference structure of the clone is analysed by the heap model
below), so a cache hit returns the cached value unchanged. -/
def planRefinerM (target : PlannerTarget) (config : PlannerConfig)
    (cache : PlanCache) : Except PlanError PlannerResult × PlanCache :=
  let maxDepth := config.maxDepth.getD (defaultMaxDepth config.mode)
  let key := cacheKey config.mode target maxDepth
  match cacheGet cache key with
  | some cached => (.ok cached, cache)
  | none =>
    match config.canonicalIndex target.itemId with
    | none => (.error (.missingCanonicalRecipe target.itemId), cache)
    | some options =>
      if options.isEmpty then (.error (.missingCanonicalRecipe target.itemId), cache)
      else
        match selectRecipe options target.recipeId with
        | .error e => (.error e, cache)
        | .ok recipe =>
          let result :=
            match config.mode with
            | .strict => planStrict recipe target.quantity config.canonicalIndex config.categories
            | .synthesis =>
              planSynthesis recipe target.quantity config.canonicalIndex config.categories maxDepth
          (.ok result, cacheSet cache key result)

/-! ## Layout planner (src/lib/planner.ts) -/

/-- Exact rational arithmetic for the JavaScript numbers of the module
catalog (base values, adjacency weights, supercharge multipliers such
as 1.5).  A value is the fraction `num / den` with `den > 0`; sums and
products are computed without normalization, so every operation is
structural and computes inside the kernel (`Rat` of this toolchain
normalizes through `Nat.gcd`, which does not reduce there).  All
arithmetic on such fractions is exact, as is JavaScript float
arithmetic on the small decimal values of the catalog. -/
structure JsNum where
  num : Int
  den : Int
deriving DecidableEq

instance : Add JsNum := ⟨fun a b => ⟨a.num * b.den + b.num * a.den, a.den * b.den⟩⟩

instance : Mul JsNum := ⟨fun a b => ⟨a.num * b.num, a.den * b.den⟩⟩

instance : Zero JsNum := ⟨⟨0, 1⟩⟩

/-- The comparison `a ≤ b` of two fractions with positive
denominators, by cross multiplication. -/
def JsNum.jsLe (a b : JsNum) : Bool := decide (a.num * b.den ≤ b.num * a.den)

/-- A tech module (`TechModule` of `src/types.ts`). -/
structure TechModule where
  id : String
  name : String
  platform : String
  slotType : String
  baseValue : JsNum
  adjacency : List (String × JsNum)
  superchargeMultiplier : JsNum
  tags : List String
deriving DecidableEq

/-- A planner grid slot. -/
structure PlannerSlot where
  id : String
  type : String
  supercharged : Bool
  moduleId : Option String
deriving DecidableEq

/-- A planner grid: `slots` in row-major order. -/
structure PlannerGrid where
  rows : Nat
  cols : Nat
  slots : List PlannerSlot
deriving DecidableEq

/-- The planner state: grid plus bench. -/
structure PlannerState where
  platform : String
  grid : PlannerGrid
  benchModules : List String
deriving DecidableEq

/-- The module catalog `Map<string, TechModule>`. -/
def ModuleMap : Type := List (String × TechModule)

/-- `modules.get(id)`. -/
def moduleMapGet (modules : ModuleMap) (k : String) : Option TechModule :=
  (modules.find? (fun e => e.1 == k)).map (fun e => e.2)

/-- `module.adjacency[neighbourId] ?? 0`. -/
def adjacencyGet (adjacency : List (String × JsNum)) (k : String) : JsNum :=
  ((adjacency.find? (fun e => e.1 == k)).map (fun e => e.2)).getD 0

/-- Out-of-range slot reads never happen on well-formed grids
(`slots.length = rows * cols`); the default keeps the model total. -/
def emptySlot : PlannerSlot := ⟨"", "tech", false, none⟩

/-- `NEIGHBOUR_OFFSETS`: the four orthogonal directions. -/
def neighbourOffsets : List (Int × Int) := [(-1, 0), (1, 0), (0, -1), (0, 1)]

/-- JavaScript `Math.round` (half rounds towards positive infinity):
`round(x) = floor(x + 1/2)`, i.e. the floor division of
`2 * num + den` by `2 * den`. -/
def jsRound (x : JsNum) : Int := Int.fdiv (2 * x.num + x.den) (2 * x.den)

/-- The contribution one slot adds to the score accumulator of
`scorePlannerGrid`: skip empty and unrecognized module ids, start from
`baseValue`, add the adjacency weight for every in-bounds orthogonal
neighbour that holds any module id, then multiply by the supercharge
multiplier when the slot is supercharged. -/
def slotContribution (grid : PlannerGrid) (modules : ModuleMap) (index : Nat) : JsNum :=
  let slot := grid.slots.getD index emptySlot
  match slot.moduleId with
  | none => 0
  | some mid =>
    match moduleMapGet modules mid with
    | none => 0
    | some module =>
      let row := index / grid.cols
      let col := index % grid.cols
      let adjSum := neighbourOffsets.foldl (fun acc d =>
        let nr := (row : Int) + d.1
        let nc := (col : Int) + d.2
        if nr < 0 ∨ (grid.rows : Int) ≤ nr ∨ nc < 0 ∨ (grid.cols : Int) ≤ nc then acc
        else
          let neighbour := grid.slots.getD (nr.toNat * grid.cols + nc.toNat) emptySlot
          match neighbour.moduleId with
          | none => acc
          | some nid => acc + adjacencyGet module.adjacency nid) (0 : JsNum)
      let moduleScore := module.baseValue + adjSum
      if slot.supercharged then moduleScore * module.superchargeMultiplier else moduleScore

/-- `scorePlannerGrid`: sum of all slot contributions, rounded. -/
def scorePlannerGrid (grid : PlannerGrid) (modules : ModuleMap) : Int :=
  jsRound (((List.range grid.slots.length).map (slotContribution grid modules)).sum)

/-- `(mod?.baseValue ?? 0) * (mod?.superchargeMultiplier ?? 1)`. -/
def greedySortValue (modules : ModuleMap) (id : String) : JsNum :=
  (((moduleMapGet modules id).map (fun m => m.baseValue)).getD 0) *
    (((moduleMapGet modules id).map (fun m => m.superchargeMultiplier)).getD ⟨1, 1⟩)

/-- The slot priority of the greedy seed: supercharged slots weigh 1.5. -/
def slotMult (s : PlannerSlot) : JsNum := if s.supercharged then ⟨3, 2⟩ else ⟨1, 1⟩

/-- The assignment loop of `greedyPlacement` (a left fold over the
enumerated sorted pool, matching `forEach` with its index): the module
at position `idx` of the sorted pool goes to the slot index of
`orderedSlots[idx]`, modules beyond the slot count are skipped. -/
def applyGreedyAssignments (orderedSlots : List (Nat × PlannerSlot)) :
    List PlannerSlot → List (Nat × String) → List PlannerSlot
  | slots, [] => slots
  | slots, p :: rest =>
    applyGreedyAssignments orderedSlots
      (match orderedSlots.get? p.1 with
       | none => slots
       | some target =>
         slots.set target.1 ({ slots.getD target.1 emptySlot with moduleId := some p.2 }))
      rest

/-- `greedyPlacement`: sort the pool descending by effective value,
clear every placement, sort the slot list with supercharged slots
first (stable), then assign pool modules to ordered slots one-to-one. -/
def greedyPlacement (grid : PlannerGrid) (moduleIds : List String)
    (modules : ModuleMap) : PlannerGrid :=
  let sortedModules := stableSort
    (fun a b => JsNum.jsLe (greedySortValue modules b) (greedySortValue modules a)) moduleIds
  let slots := grid.slots.map (fun s => { s with moduleId := none })
  let orderedSlots := stableSort
    (fun a b => JsNum.jsLe (slotMult b.2) (slotMult a.2)) slots.enum
  { grid with slots := applyGreedyAssignments orderedSlots slots sortedModules.enum }

/-- Swap the module assignments of slot indices `i` and `j` on a copy
of the grid, exactly as the loop body of `suggestBestArrangement`. -/
def swapModuleIds (grid : PlannerGrid) (i j : Nat) : PlannerGrid :=
  let si := grid.slots.getD i emptySlot
  let sj := grid.slots.getD j emptySlot
  let slots1 := grid.slots.set i ({ si with moduleId := sj.moduleId })
  let slots2 := slots1.set j ({ sj with moduleId := si.moduleId })
  { grid with slots := slots2 }

/-- One iteration of the stochastic hill climb.  `pick` is the pair of
random draws of the iteration, interpreted as positions inside the
fixed list of occupied slot indices; the sampler of the source only
ever yields two distinct in-range positions, so other pairs leave the
state unchanged. -/
def hillStep (modules : ModuleMap) (moduleSlotIndices : List Nat)
    (best : PlannerGrid × Int) (pick : Nat × Nat) : PlannerGrid × Int :=
  match moduleSlotIndices.get? pick.1, moduleSlotIndices.get? pick.2 with
  | some i, some j =>
    if pick.1 = pick.2 then best
    else
      let nextGrid := swapModuleIds best.1 i j
      let candidateScore := scorePlannerGrid nextGrid modules
      if best.2 < candidateScore then (nextGrid, candidateScore) else best
  | _, _ => best

/-- `suggestBestArrangement`: pool collection, greedy seed, hill climb
(one entry of `picks` per loop iteration, none when fewer than two
slots are occupied), then bench recomputation by filtering the pool
against the set of placed ids. -/
def suggestBestArrangement (planner : PlannerState) (modules : ModuleMap)
    (picks : List (Nat × Nat)) : PlannerState :=
  let currentModules := planner.grid.slots.filterMap (fun s => s.moduleId)
  let modulesToPlace := currentModules ++ planner.benchModules
  let baseGrid := greedyPlacement planner.grid modulesToPlace modules
  let bestStart := (baseGrid, scorePlannerGrid baseGrid modules)
  let moduleSlotIndices :=
    (baseGrid.slots.enum.filter (fun p => p.2.moduleId.isSome)).map (fun p => p.1)
  let best :=
    if moduleSlotIndices.length < 2 then bestStart
    else picks.foldl (hillStep modules moduleSlotIndices) bestStart
  let assignedModuleIds := best.1.slots.filterMap (fun s => s.moduleId)
  let remainingBench := modulesToPlace.filter (fun id => !(assignedModuleIds.contains id))
  { planner with grid := best.1, benchModules := remainingBench }

/-! ## Heap model of `cloneResult` (src/lib/refinerPlanner.ts)

The plan cache claims are about JavaScript reference structure, so the
objects of a `PlannerResult` are modelled with explicit addresses: one
address per mutable object (the result object, the steps array, each
step object, each inputs array, each input object, the baseMaterials
array and each of its entry objects, and each recipe object).  Cloning
allocates fresh addresses in increasing order from a counter; the
spread `{ ...step, inputs: ... }` copies the `recipe` field as a bare
reference, so the cloned step keeps the original `recipeAddr`. -/

/-- An `{ itemId, qty }` object with its heap address. -/
structure InputObjH where
  addr : Nat
  itemId : String
  qty : Nat
deriving DecidableEq

/-- A step object with its heap address, the address of its `inputs`
array, and the address of the shared `recipe` object. -/
structure StepObjH where
  addr : Nat
  recipeAddr : Nat
  depth : Nat
  runs : Nat
  timeSeconds : Nat
  outputQty : Nat
  inputsAddr : Nat
  inputs : List InputObjH
deriving DecidableEq

/-- A planner result with explicit heap addresses. -/
structure ResultObjH where
  addr : Nat
  mode : RefinerPlannerMode
  targetQty : Nat
  outputQty : Nat
  totalTimeSeconds : Nat
  stepsAddr : Nat
  steps : List StepObjH
  baseAddr : Nat
  baseMaterials : List InputObjH
  recipeId : String
deriving DecidableEq

/-- `input => ({ ...input })`: fresh objects for a list of entries,
addresses allocated in order from `n`. -/
def cloneInputsH (n : Nat) (inputs : List InputObjH) : List InputObjH × Nat :=
  (inputs.enum.map (fun p => { p.2 with addr := n + p.1 }), n + inputs.length)

/-- `step => ({ ...step, inputs: step.inputs.map(input => ({ ...input })) })`:
fresh input objects, a fresh inputs array, a fresh step object; the
`recipe` reference is copied unchanged. -/
def cloneStepH (n : Nat) (s : StepObjH) : StepObjH × Nat :=
  let cloned := cloneInputsH n s.inputs
  ({ s with addr := cloned.2 + 1, inputsAddr := cloned.2, inputs := cloned.1 },
    cloned.2 + 2)

/-- Clone a list of steps, threading the allocation counter. -/
def cloneStepsH : Nat → List StepObjH → List StepObjH × Nat
  | n, [] => ([], n)
  | n, s :: rest =>
    let first := cloneStepH n s
    let others := cloneStepsH first.2 rest
    (first.1 :: others.1, others.2)

/-- `cloneResult` on the heap model: fresh step objects, a fresh steps
array, fresh baseMaterials entries and array, and a fresh result
object. -/
def cloneResultH (n : Nat) (r : ResultObjH) : ResultObjH × Nat :=
  let cs := cloneStepsH n r.steps
  let cb := cloneInputsH (cs.2 + 1) r.baseMaterials
  ({ r with
      addr := cb.2 + 1
      stepsAddr := cs.2
      steps := cs.1
      baseAddr := cb.2
      baseMaterials := cb.1 },
    cb.2 + 2)

/-- The addresses of the objects a clone is supposed to own privately:
everything reachable except the recipe objects. -/
def stepOwnAddrs (s : StepObjH) : List Nat :=
  s.addr :: s.inputsAddr :: s.inputs.map (fun i => i.addr)

/-- Own (non-recipe) addresses of a result. -/
def resultOwnAddrs (r : ResultObjH) : List Nat :=
  r.addr :: r.stepsAddr :: r.baseAddr ::
    ((r.steps.map stepOwnAddrs).flatten ++ r.baseMaterials.map (fun i => i.addr))

/-- The addresses of the nested recipe objects. -/
def resultRecipeAddrs (r : ResultObjH) : List Nat :=
  r.steps.map (fun s => s.recipeAddr)

/-- Every address reachable from a result. -/
def resultAllAddrs (r : ResultObjH) : List Nat :=
  resultOwnAddrs r ++ resultRecipeAddrs r

/-- The pure value of a step, addresses erased. -/
structure StepView where
  depth : Nat
  runs : Nat
  timeSeconds : Nat
  outputQty : Nat
  inputs : List QtyEntry
deriving DecidableEq

/-- The pure value of a result, addresses erased. -/
structure ResultView where
  mode : RefinerPlannerMode
  targetQty : Nat
  outputQty : Nat
  totalTimeSeconds : Nat
  steps : List StepView
  baseMaterials : List QtyEntry
  recipeId : String
deriving DecidableEq

def inputView (i : InputObjH) : QtyEntry := ⟨i.itemId, i.qty⟩

def stepView (s : StepObjH) : StepView :=
  ⟨s.depth, s.runs, s.timeSeconds, s.outputQty, s.inputs.map inputView⟩

def resultView (r : ResultObjH) : ResultView :=
  ⟨r.mode, r.targetQty, r.outputQty, r.totalTimeSeconds,
    r.steps.map stepView, r.baseMaterials.map inputView, r.recipeId⟩

/-! ## Unfolding lemmas for the expansion functions -/

theorem buildRecipeNodeF_eq (fuel : Nat) (recipe : CanonicalRecipe)
    (desiredQty depth maxDepth : Nat) (ci : CanonicalIndex) (ac : List String)
    (cats : ItemCategoryMap) (visited : List String) :
    buildRecipeNodeF fuel recipe desiredQty depth maxDepth ci ac cats visited =
      PlanNode.mk recipe.output desiredQty
        (max 1 ((desiredQty + recipe.quantity - 1) / recipe.quantity) * recipe.quantity)
        (max 1 ((desiredQty + recipe.quantity - 1) / recipe.quantity))
        (recipe.time_s * max 1 ((desiredQty + recipe.quantity - 1) / recipe.quantity))
        depth (some recipe)
        (recipe.inputs.map (fun input =>
          buildNodeForItemF fuel input.item
            (input.qty * max 1 ((desiredQty + recipe.quantity - 1) / recipe.quantity))
            (depth + 1) maxDepth ci ac cats (setAdd visited recipe.output))) := by
  rw [buildRecipeNodeF]

theorem buildRecipeNode_eq (recipe : CanonicalRecipe)
    (desiredQty depth maxDepth : Nat) (ci : CanonicalIndex) (ac : List String)
    (cats : ItemCategoryMap) (visited : List String) :
    buildRecipeNode recipe desiredQty depth maxDepth ci ac cats visited =
      PlanNode.mk recipe.output desiredQty
        (max 1 ((desiredQty + recipe.quantity - 1) / recipe.quantity) * recipe.quantity)
        (max 1 ((desiredQty + recipe.quantity - 1) / recipe.quantity))
        (recipe.time_s * max 1 ((desiredQty + recipe.quantity - 1) / recipe.quantity))
        depth (some recipe)
        (recipe.inputs.map (fun input =>
          buildNodeForItem input.item
            (input.qty * max 1 ((desiredQty + recipe.quantity - 1) / recipe.quantity))
            (depth + 1) maxDepth ci ac cats (setAdd visited recipe.output))) := by
  unfold buildRecipeNode buildNodeForItem
  rw [buildRecipeNodeF_eq, Nat.succ_sub_succ]

theorem buildNodeForItemF_zero (itemId : String) (quantity depth maxDepth : Nat)
    (ci : CanonicalIndex) (ac : List String) (cats : ItemCategoryMap)
    (visited : List String) :
    buildNodeForItemF 0 itemId quantity depth maxDepth ci ac cats visited =
      createBaseNode itemId quantity depth := by
  rw [buildNodeForItemF]

theorem buildNodeForItem_of_depth (itemId : String) (quantity depth maxDepth : Nat)
    (ci : CanonicalIndex) (ac : List String) (cats : ItemCategoryMap)
    (visited : List String) (h : maxDepth < depth) :
    buildNodeForItem itemId quantity depth maxDepth ci ac cats visited =
      createBaseNode itemId quantity depth := by
  unfold buildNodeForItem
  have hf : maxDepth + 1 - depth = 0 := by omega
  rw [hf, buildNodeForItemF_zero]

theorem buildNodeForItem_of_visited (itemId : String) (quantity depth maxDepth : Nat)
    (ci : CanonicalIndex) (ac : List String) (cats : ItemCategoryMap)
    (visited : List String) (h : visited.contains itemId = true) :
    buildNodeForItem itemId quantity depth maxDepth ci ac cats visited =
      createBaseNode itemId quantity depth := by
  unfold buildNodeForItem
  cases hf : maxDepth + 1 - depth with
  | zero => rw [buildNodeForItemF_zero]
  | succ f =>
    rw [buildNodeForItemF]
    have hmem : itemId ∈ visited := by simpa using h
    by_cases hd : maxDepth < depth
    · simp [hd]
    · simp [hd, hmem]

theorem buildNodeForItemF_desiredQty (fuel : Nat) (itemId : String)
    (quantity depth maxDepth : Nat) (ci : CanonicalIndex) (ac : List String)
    (cats : ItemCategoryMap) (visited : List String) :
    (buildNodeForItemF fuel itemId quantity depth maxDepth ci ac cats visited).desiredQty
      = quantity := by
  cases fuel with
  | zero => rw [buildNodeForItemF_zero]; rfl
  | succ f =>
    rw [buildNodeForItemF]
    split
    · rfl
    split
    · rfl
    split
    · rfl
    split
    · rfl
    split
    · rfl
    rfl

theorem buildNodeForItem_desiredQty (itemId : String)
    (quantity depth maxDepth : Nat) (ci : CanonicalIndex) (ac : List String)
    (cats : ItemCategoryMap) (visited : List String) :
    (buildNodeForItem itemId quantity depth maxDepth ci ac cats visited).desiredQty
      = quantity := by
  unfold buildNodeForItem
  exact buildNodeForItemF_desiredQty _ _ _ _ _ _ _ _ _

/-! ## Claim C4: quantity arithmetic -/

/-- Claim C4: for a recipe with batch size `quantity = q > 0`, time
`time_s = t`, and desired quantity `n > 0`, the node built by
`buildRecipeNode` has `runs = ceil(n / q) = max 1 (ceil(n / q))`,
`actualQty = runs * q ≥ n` (overproduction is reported in the node,
never rejected), `timeSeconds = runs * t`, and every child is built
with desired quantity `input.qty * runs`. -/
theorem quantity_arithmetic_C4 (recipe : CanonicalRecipe) (n depth maxDepth : Nat)
    (ci : CanonicalIndex) (ac : List String) (cats : ItemCategoryMap)
    (visited : List String) (hq : 0 < recipe.quantity) (hn : 0 < n) :
    (buildRecipeNode recipe n depth maxDepth ci ac cats visited).runs
        = (n + recipe.quantity - 1) / recipe.quantity ∧
    (buildRecipeNode recipe n depth maxDepth ci ac cats visited).runs
        = max 1 ((n + recipe.quantity - 1) / recipe.quantity) ∧
    (buildRecipeNode recipe n depth maxDepth ci ac cats visited).actualQty
        = (buildRecipeNode recipe n depth maxDepth ci ac cats visited).runs * recipe.quantity ∧
    n ≤ (buildRecipeNode recipe n depth maxDepth ci ac cats visited).actualQty ∧
    (buildRecipeNode recipe n depth maxDepth ci ac cats visited).timeSeconds
        = (buildRecipeNode recipe n depth maxDepth ci ac cats visited).runs * recipe.time_s ∧
    (buildRecipeNode recipe n depth maxDepth ci ac cats visited).children.map PlanNode.desiredQty
        = recipe.inputs.map (fun input =>
            input.qty * (buildRecipeNode recipe n depth maxDepth ci ac cats visited).runs) := by
  have hceil : 1 ≤ (n + recipe.quantity - 1) / recipe.quantity := by
    rw [Nat.le_div_iff_mul_le hq]
    omega
  have hmax : max 1 ((n + recipe.quantity - 1) / recipe.quantity)
      = (n + recipe.quantity - 1) / recipe.quantity := Nat.max_eq_right hceil
  have hover : n ≤ ((n + recipe.quantity - 1) / recipe.quantity) * recipe.quantity := by
    have hlt := Nat.lt_div_mul_add (a := n + recipe.quantity - 1) hq
    omega
  rw [buildRecipeNode_eq]
  refine ⟨by simp [PlanNode.runs, hmax], by simp [PlanNode.runs], ?_, ?_, ?_, ?_⟩
  · simp [PlanNode.actualQty, PlanNode.runs]
  · simp only [PlanNode.actualQty, hmax]
    exact hover
  · simp [PlanNode.timeSeconds, PlanNode.runs, Nat.mul_comm]
  · simp only [PlanNode.children, PlanNode.runs, List.map_map]
    refine List.map_congr_left (fun input _ => ?_)
    simp [Function.comp, buildNodeForItem_desiredQty]

/-- Concrete instance discharging the hypotheses of
`quantity_arithmetic_C4`: a recipe producing batches of 2 in 3 seconds
from 5 units of input, asked for 3 units. -/
theorem quantity_arithmetic_C4_witness :
    0 < (2 : Nat) ∧ 0 < (3 : Nat) ∧
    ((buildRecipeNode ⟨"r4", some "R4", "out", 2, "Medium", 3, [⟨"in1", 5⟩], false⟩ 3 0 2
        (fun _ => none) [] (fun _ => none) []).runs = (3 + 2 - 1) / 2 ∧
      (buildRecipeNode ⟨"r4", some "R4", "out", 2, "Medium", 3, [⟨"in1", 5⟩], false⟩ 3 0 2
        (fun _ => none) [] (fun _ => none) []).runs = max 1 ((3 + 2 - 1) / 2) ∧
      (buildRecipeNode ⟨"r4", some "R4", "out", 2, "Medium", 3, [⟨"in1", 5⟩], false⟩ 3 0 2
        (fun _ => none) [] (fun _ => none) []).actualQty =
        (buildRecipeNode ⟨"r4", some "R4", "out", 2, "Medium", 3, [⟨"in1", 5⟩], false⟩ 3 0 2
          (fun _ => none) [] (fun _ => none) []).runs * 2 ∧
      3 ≤ (buildRecipeNode ⟨"r4", some "R4", "out", 2, "Medium", 3, [⟨"in1", 5⟩], false⟩ 3 0 2
        (fun _ => none) [] (fun _ => none) []).actualQty ∧
      (buildRecipeNode ⟨"r4", some "R4", "out", 2, "Medium", 3, [⟨"in1", 5⟩], false⟩ 3 0 2
        (fun _ => none) [] (fun _ => none) []).timeSeconds =
        (buildRecipeNode ⟨"r4", some "R4", "out", 2, "Medium", 3, [⟨"in1", 5⟩], false⟩ 3 0 2
          (fun _ => none) [] (fun _ => none) []).runs * 3 ∧
      (buildRecipeNode ⟨"r4", some "R4", "out", 2, "Medium", 3, [⟨"in1", 5⟩], false⟩ 3 0 2
        (fun _ => none) [] (fun _ => none) []).children.map PlanNode.desiredQty =
        [⟨"in1", 5⟩].map (fun input : RecipeInput =>
          input.qty * (buildRecipeNode ⟨"r4", some "R4", "out", 2, "Medium", 3, [⟨"in1", 5⟩], false⟩
            3 0 2 (fun _ => none) [] (fun _ => none) []).runs)) :=
  ⟨by decide, by decide,
    quantity_arithmetic_C4 ⟨"r4", some "R4", "out", 2, "Medium", 3, [⟨"in1", 5⟩], false⟩ 3 0 2
      (fun _ => none) [] (fun _ => none) [] (by decide) (by decide)⟩

/-! ## Claim C3: cycle guard and termination -/

/-- The cyclic two-recipe catalog of the claim: producing `itemA`
consumes `itemB` and producing `itemB` consumes `itemA`. -/
def cycleRecipeA : CanonicalRecipe :=
  ⟨"recA", some "A rule", "itemA", 1, "Medium", 10, [⟨"itemB", 1⟩], false⟩

def cycleRecipeB : CanonicalRecipe :=
  ⟨"recB", some "B rule", "itemB", 1, "Medium", 10, [⟨"itemA", 1⟩], false⟩

def cycleIndex : CanonicalIndex := fun s =>
  if s = "itemA" then some [cycleRecipeA]
  else if s = "itemB" then some [cycleRecipeB]
  else none

def noCategories : ItemCategoryMap := fun _ => none

def cycleConfig : PlannerConfig := ⟨.synthesis, cycleIndex, noCategories, none⟩

/-- Claim C3: an item already in the visited set of the current
root-to-node path is forced to a leaf instead of being re-expanded, so
expansion is finite; in particular synthesis planning over the cyclic
catalog `itemA ↔ itemB` terminates with a two-step plan in which the
inner `itemA` occurrence became a leaf (the only base material). -/
theorem cycle_guard_C3 (itemId : String) (quantity depth maxDepth : Nat)
    (ci : CanonicalIndex) (ac : List String) (cats : ItemCategoryMap)
    (visited : List String) (hvis : visited.contains itemId = true) :
    buildNodeForItem itemId quantity depth maxDepth ci ac cats visited
        = createBaseNode itemId quantity depth ∧
    ((planRefinerM ⟨"itemA", 1, none⟩ cycleConfig []).1.toOption.map
        (fun r => (r.baseMaterials, r.steps.map (fun s => s.recipe.id))))
      = some ([⟨"itemA", 1⟩], ["recA", "recB"]) :=
  ⟨buildNodeForItem_of_visited _ _ _ _ _ _ _ _ hvis, by decide⟩

/-- Concrete instance discharging the hypothesis of `cycle_guard_C3`:
expanding `itemA` when `itemA` is already on the path. -/
theorem cycle_guard_C3_witness :
    (["itemA"].contains "itemA" = true) ∧
    (buildNodeForItem "itemA" 1 1 2 cycleIndex [] noCategories ["itemA"]
        = createBaseNode "itemA" 1 1 ∧
      ((planRefinerM ⟨"itemA", 1, none⟩ cycleConfig []).1.toOption.map
          (fun r => (r.baseMaterials, r.steps.map (fun s => s.recipe.id))))
        = some ([⟨"itemA", 1⟩], ["recA", "recB"])) :=
  ⟨by decide, cycle_guard_C3 "itemA" 1 1 2 cycleIndex [] noCategories ["itemA"] (by decide)⟩

/-! ## Claim C5: strict mode -/

theorem collectSteps_leaf (i : String) (q d : Nat) (acc : List PlannerStep) :
    collectSteps (createBaseNode i q d) acc = acc := by
  simp [collectSteps, createBaseNode, collectStepsList]

theorem collectStepsList_leaves {α : Type} (f : α → String) (g : α → Nat) (d : Nat) :
    ∀ (xs : List α) (acc : List PlannerStep),
      collectStepsList (xs.map (fun a => createBaseNode (f a) (g a) d)) acc = acc
  | [], _ => by simp [collectStepsList]
  | x :: xs, acc => by
    rw [List.map_cons, collectStepsList, collectSteps_leaf]
    exact collectStepsList_leaves f g d xs acc

theorem collectBaseMaterials_leaf (i : String) (q d : Nat) (acc : List QtyEntry) :
    collectBaseMaterials (createBaseNode i q d) acc = upsertQty acc i q := by
  simp [collectBaseMaterials, createBaseNode]

theorem mem_keys_setQty_self : ∀ (acc : List QtyEntry) (item : String) (q : Nat),
    item ∈ (setQty acc item q).map QtyEntry.itemId
  | [], item, q => by simp [setQty]
  | e :: rest, item, q => by
    by_cases h : e.itemId = item
    · simp [setQty, h]
    · rw [setQty, if_neg h, List.map_cons]
      exact List.mem_cons_of_mem _ (mem_keys_setQty_self rest item q)

theorem mem_keys_setQty_mono : ∀ (acc : List QtyEntry) (item : String) (q : Nat)
    (x : String), x ∈ acc.map QtyEntry.itemId → x ∈ (setQty acc item q).map QtyEntry.itemId
  | [], _, _, _, hx => by simp at hx
  | e :: rest, item, q, x, hx => by
    by_cases h : e.itemId = item
    · rw [setQty, if_pos h, List.map_cons]
      rw [List.map_cons, List.mem_cons] at hx
      rcases hx with hx | hx
      · rw [List.mem_cons]
        exact Or.inl (hx.trans h)
      · exact List.mem_cons_of_mem _ hx
    · rw [setQty, if_neg h, List.map_cons]
      rw [List.map_cons, List.mem_cons] at hx
      rcases hx with hx | hx
      · rw [List.mem_cons]
        exact Or.inl hx
      · exact List.mem_cons_of_mem _ (mem_keys_setQty_mono rest item q x hx)

theorem mem_keys_upsertQty_self (acc : List QtyEntry) (item : String) (q : Nat) :
    item ∈ (upsertQty acc item q).map QtyEntry.itemId :=
  mem_keys_setQty_self acc item _

theorem mem_keys_upsertQty_mono (acc : List QtyEntry) (item : String) (q : Nat)
    (x : String) (hx : x ∈ acc.map QtyEntry.itemId) :
    x ∈ (upsertQty acc item q).map QtyEntry.itemId :=
  mem_keys_setQty_mono acc item _ x hx

theorem keys_collectLeaves_mono {α : Type} (f : α → String) (g : α → Nat) (d : Nat) :
    ∀ (xs : List α) (acc : List QtyEntry) (x : String),
      x ∈ acc.map QtyEntry.itemId →
      x ∈ ((collectBaseMaterialsList (xs.map (fun a => createBaseNode (f a) (g a) d)) acc).map
        QtyEntry.itemId)
  | [], _, _, hx => by simpa [collectBaseMaterialsList] using hx
  | a :: xs, acc, x, hx => by
    rw [List.map_cons, collectBaseMaterialsList, collectBaseMaterials_leaf]
    exact keys_collectLeaves_mono f g d xs _ x (mem_keys_upsertQty_mono acc (f a) (g a) x hx)

theorem key_mem_collectLeaves {α : Type} (f : α → String) (g : α → Nat) (d : Nat) :
    ∀ (xs : List α) (acc : List QtyEntry) (a : α), a ∈ xs →
      f a ∈ ((collectBaseMaterialsList (xs.map (fun b => createBaseNode (f b) (g b) d)) acc).map
        QtyEntry.itemId)
  | [], _, _, ha => by simp at ha
  | b :: xs, acc, a, ha => by
    rw [List.map_cons, collectBaseMaterialsList, collectBaseMaterials_leaf]
    rw [List.mem_cons] at ha
    rcases ha with rfl | ha
    · exact keys_collectLeaves_mono f g d xs _ (f a)
        (mem_keys_upsertQty_self acc (f a) (g a))
    · exact key_mem_collectLeaves f g d xs _ a ha

/-- Claim C5: strict-mode planning applies exactly one recipe (the
root), and every direct input of the root recipe appears among the
base materials, whether or not the catalog has recipes for those
inputs. -/
theorem strict_mode_C5 (recipe : CanonicalRecipe) (q : Nat) (ci : CanonicalIndex)
    (cats : ItemCategoryMap) :
    (planStrict recipe q ci cats).steps.length = 1 ∧
    (recipe.inputs.all (fun input =>
      ((planStrict recipe q ci cats).baseMaterials.map QtyEntry.itemId).contains input.item))
      = true := by
  simp only [planStrict]
  rw [buildRecipeNode_eq]
  have hleaf : ∀ input : RecipeInput,
      buildNodeForItem input.item
          (input.qty * max 1 ((q + recipe.quantity - 1) / recipe.quantity)) 1 0 ci
          (collectCategories recipe cats) cats (setAdd [] recipe.output)
        = createBaseNode input.item
            (input.qty * max 1 ((q + recipe.quantity - 1) / recipe.quantity)) 1 :=
    fun input => buildNodeForItem_of_depth _ _ _ _ _ _ _ _ (by omega)
  rw [List.map_congr_left (fun input _ => hleaf input)]
  constructor
  · have hsteps : collectSteps
        (PlanNode.mk recipe.output q
          (max 1 ((q + recipe.quantity - 1) / recipe.quantity) * recipe.quantity)
          (max 1 ((q + recipe.quantity - 1) / recipe.quantity))
          (recipe.time_s * max 1 ((q + recipe.quantity - 1) / recipe.quantity)) 0 (some recipe)
          (recipe.inputs.map (fun input => createBaseNode input.item
            (input.qty * max 1 ((q + recipe.quantity - 1) / recipe.quantity)) 1))) []
        = [⟨recipe, 0, max 1 ((q + recipe.quantity - 1) / recipe.quantity),
            recipe.time_s * max 1 ((q + recipe.quantity - 1) / recipe.quantity),
            max 1 ((q + recipe.quantity - 1) / recipe.quantity) * recipe.quantity,
            recipe.inputs.map (fun input => ⟨input.item,
              input.qty * max 1 ((q + recipe.quantity - 1) / recipe.quantity)⟩)⟩] := by
      rw [collectSteps]
      exact collectStepsList_leaves _ _ _ _ _
    simp [buildResultFromNode, hsteps, stableSort, sortInsert]
  · rw [List.all_eq_true]
    intro input hmem
    have hkey : input.item ∈ ((collectBaseMaterials
        (PlanNode.mk recipe.output q
          (max 1 ((q + recipe.quantity - 1) / recipe.quantity) * recipe.quantity)
          (max 1 ((q + recipe.quantity - 1) / recipe.quantity))
          (recipe.time_s * max 1 ((q + recipe.quantity - 1) / recipe.quantity)) 0 (some recipe)
          (recipe.inputs.map (fun inp => createBaseNode inp.item
            (inp.qty * max 1 ((q + recipe.quantity - 1) / recipe.quantity)) 1))) []).map
        QtyEntry.itemId) := by
      rw [collectBaseMaterials]
      cases hinp : recipe.inputs with
      | nil => rw [hinp] at hmem; simp at hmem
      | cons b rest =>
        rw [if_neg (by simp)]
        exact key_mem_collectLeaves RecipeInput.item
          (fun inp => inp.qty * max 1 ((q + recipe.quantity - 1) / recipe.quantity)) 1
          (b :: rest) [] input (hinp ▸ hmem)
    simp only [buildResultFromNode]
    simpa using hkey

/-! ## Claim C6: category guard -/

theorem mem_setAdd (s : List String) (x y : String) :
    x ∈ setAdd s y ↔ x ∈ s ∨ x = y := by
  unfold setAdd
  by_cases h : s.contains y
  · rw [if_pos h]
    have hy : y ∈ s := by simpa using h
    constructor
    · exact Or.inl
    · rintro (hx | rfl)
      · exact hx
      · exact hy
  · rw [if_neg h]
    simp

theorem mem_collectCategories_aux (cats : ItemCategoryMap) :
    ∀ (inputs : List RecipeInput) (acc : List String) (c : String),
      (c ∈ inputs.foldl (fun allowed input =>
          match cats input.item with
          | some category => setAdd allowed category
          | none => allowed) acc
        ↔ c ∈ acc ∨ ∃ input ∈ inputs, cats input.item = some c)
  | [], acc, c => by simp
  | input :: rest, acc, c => by
    rw [List.foldl_cons]
    cases hcat : cats input.item with
    | none =>
      rw [mem_collectCategories_aux cats rest acc c]
      constructor
      · rintro (hc | ⟨i, hi, hic⟩)
        · exact Or.inl hc
        · exact Or.inr ⟨i, List.mem_cons_of_mem _ hi, hic⟩
      · rintro (hc | ⟨i, hi, hic⟩)
        · exact Or.inl hc
        · rw [List.mem_cons] at hi
          rcases hi with rfl | hi
          · rw [hcat] at hic; cases hic
          · exact Or.inr ⟨i, hi, hic⟩
    | some cat =>
      rw [mem_collectCategories_aux cats rest (setAdd acc cat) c, mem_setAdd]
      constructor
      · rintro ((hc | rfl) | ⟨i, hi, hic⟩)
        · exact Or.inl hc
        · exact Or.inr ⟨input, List.mem_cons_self _ _, hcat⟩
        · exact Or.inr ⟨i, List.mem_cons_of_mem _ hi, hic⟩
      · rintro (hc | ⟨i, hi, hic⟩)
        · exact Or.inl (Or.inl hc)
        · rw [List.mem_cons] at hi
          rcases hi with rfl | hi
          · rw [hcat] at hic
            exact Or.inl (Or.inr (Option.some_injective _ hic).symm)
          · exact Or.inr ⟨i, hi, hic⟩

theorem mem_collectCategories (recipe : CanonicalRecipe) (cats : ItemCategoryMap)
    (c : String) :
    c ∈ collectCategories recipe cats ↔ ∃ input ∈ recipe.inputs, cats input.item = some c := by
  unfold collectCategories
  rw [mem_collectCategories_aux cats recipe.inputs [] c]
  simp

theorem shouldAllowRecipe_iff (r : CanonicalRecipe) (allowed : List String)
    (cats : ItemCategoryMap) :
    shouldAllowRecipe r allowed cats = true ↔
      (allowed = [] ∨
        ∀ input ∈ r.inputs, ∀ cat, cats input.item = some cat → cat ∈ allowed) := by
  unfold shouldAllowRecipe
  by_cases he : allowed.isEmpty
  · rw [if_pos he]
    simp only [true_iff]
    exact Or.inl (by simpa [List.isEmpty_iff] using he)
  · rw [if_neg he]
    have hne : ¬ allowed = [] := by simpa [List.isEmpty_iff] using he
    rw [List.all_eq_true]
    constructor
    · intro h
      refine Or.inr (fun input hi cat hcat => ?_)
      have := h input hi
      rw [hcat] at this
      simpa using this
    · rintro (h | h)
      · exact absurd h hne
      · intro input hi
        cases hcat : cats input.item with
        | none => rfl
        | some cat => simpa using h input hi cat hcat

theorem buildNodeForItem_of_no_viable (itemId : String) (quantity depth maxDepth : Nat)
    (ci : CanonicalIndex) (ac : List String) (cats : ItemCategoryMap)
    (visited : List String) (options : List CanonicalRecipe)
    (hd : depth ≤ maxDepth) (hv : visited.contains itemId = false)
    (ho : ci itemId = some options) (hne : options ≠ [])
    (hviable : options.filter (fun cand => shouldAllowRecipe cand ac cats) = []) :
    buildNodeForItem itemId quantity depth maxDepth ci ac cats visited =
      createBaseNode itemId quantity depth := by
  unfold buildNodeForItem
  have hf : maxDepth + 1 - depth = (maxDepth - depth) + 1 := by omega
  rw [hf, buildNodeForItemF]
  have hd2 : ¬ maxDepth < depth := by omega
  have hv2 : ¬ itemId ∈ visited := by simpa using hv
  simp [hd2, hv2, ho, hne, hviable]

/-- Claim C6: the allowed-category set contains exactly the categories
mapped to the selected root recipe's direct inputs; a candidate recipe
passes the guard exactly when the allowed set is empty or every input
has no mapped category or a category in the allowed set; and an item
none of whose candidates passes the guard becomes a leaf. -/
theorem category_guard_C6 (root : CanonicalRecipe) (cats : ItemCategoryMap) (c : String)
    (r : CanonicalRecipe) (allowed : List String) (itemId : String)
    (quantity depth maxDepth : Nat) (ci : CanonicalIndex) (visited : List String)
    (options : List CanonicalRecipe)
    (hd : depth ≤ maxDepth) (hv : visited.contains itemId = false)
    (ho : ci itemId = some options) (hne : options ≠ [])
    (hviable : options.filter (fun cand => shouldAllowRecipe cand allowed cats) = []) :
    (c ∈ collectCategories root cats ↔ ∃ input ∈ root.inputs, cats input.item = some c) ∧
    (shouldAllowRecipe r allowed cats = true ↔
      (allowed = [] ∨
        ∀ input ∈ r.inputs, ∀ cat, cats input.item = some cat → cat ∈ allowed)) ∧
    buildNodeForItem itemId quantity depth maxDepth ci allowed cats visited =
      createBaseNode itemId quantity depth :=
  ⟨mem_collectCategories root cats c, shouldAllowRecipe_iff r allowed cats,
    buildNodeForItem_of_no_viable itemId quantity depth maxDepth ci allowed cats visited
      options hd hv ho hne hviable⟩

/-- Concrete instance discharging the hypotheses of
`category_guard_C6`: a Gas-input candidate for `mid` is filtered out by
an allowed set containing only Metal, so `mid` becomes a leaf. -/
theorem category_guard_C6_witness :
    ((0 : Nat) ≤ 2 ∧
      (["itemA"].contains "mid") = false ∧
      (fun s => if s = "mid"
        then some [⟨"gasRec", some "Gas rule", "mid", 1, "Medium", 5, [⟨"gasIn", 1⟩], false⟩]
        else none : CanonicalIndex) "mid"
        = some [⟨"gasRec", some "Gas rule", "mid", 1, "Medium", 5, [⟨"gasIn", 1⟩], false⟩] ∧
      ([⟨"gasRec", some "Gas rule", "mid", 1, "Medium", 5, [⟨"gasIn", 1⟩], false⟩]
        : List CanonicalRecipe) ≠ [] ∧
      ([⟨"gasRec", some "Gas rule", "mid", 1, "Medium", 5, [⟨"gasIn", 1⟩], false⟩]
        : List CanonicalRecipe).filter (fun cand => shouldAllowRecipe cand ["Metal"]
          (fun s => if s = "gasIn" then some "Gas" else none)) = []) ∧
    buildNodeForItem "mid" 4 0 2
      (fun s => if s = "mid"
        then some [⟨"gasRec", some "Gas rule", "mid", 1, "Medium", 5, [⟨"gasIn", 1⟩], false⟩]
        else none) ["Metal"] (fun s => if s = "gasIn" then some "Gas" else none) ["itemA"]
      = createBaseNode "mid" 4 0 :=
  ⟨⟨by decide, by decide, by decide, by decide, by decide⟩,
    (category_guard_C6
      ⟨"root", none, "rootOut", 1, "Medium", 1, [], false⟩
      (fun s => if s = "gasIn" then some "Gas" else none) "Gas"
      ⟨"root", none, "rootOut", 1, "Medium", 1, [], false⟩
      ["Metal"] "mid" 4 0 2
      (fun s => if s = "mid"
        then some [⟨"gasRec", some "Gas rule", "mid", 1, "Medium", 5, [⟨"gasIn", 1⟩], false⟩]
        else none) ["itemA"]
      [⟨"gasRec", some "Gas rule", "mid", 1, "Medium", 5, [⟨"gasIn", 1⟩], false⟩]
      (by decide) (by decide) (by decide) (by decide) (by decide)).2.2⟩

/-! ## Claims C7 and C10: error condition and cache key -/

/-- Decidable equality for `Except` results, used to settle concrete
planner outcomes. -/
def exceptDecEq {ε α : Type} [DecidableEq ε] [DecidableEq α] :
    DecidableEq (Except ε α)
  | .error e1, .error e2 =>
    if h : e1 = e2 then isTrue (h ▸ rfl)
    else isFalse (fun hh => by cases hh; exact h rfl)
  | .error _, .ok _ => isFalse (fun hh => by cases hh)
  | .ok _, .error _ => isFalse (fun hh => by cases hh)
  | .ok a1, .ok a2 =>
    if h : a1 = a2 then isTrue (h ▸ rfl)
    else isFalse (fun hh => by cases hh; exact h rfl)

instance {ε α : Type} [DecidableEq ε] [DecidableEq α] : DecidableEq (Except ε α) :=
  exceptDecEq

theorem cacheGet_cacheSet_self : ∀ (cache : PlanCache) (key : String) (r : PlannerResult),
    cacheGet (cacheSet cache key r) key = some r
  | [], key, r => by simp [cacheGet, cacheSet]
  | e :: rest, key, r => by
    by_cases h : e.1 = key
    · simp [cacheGet, cacheSet, h]
    · rw [cacheSet, if_neg h, cacheGet, List.find?_cons_of_neg _ (by simpa using h)]
      exact cacheGet_cacheSet_self rest key r

theorem stableSort_head?_of_ne_nil {α : Type} (le : α → α → Bool) :
    ∀ (l : List α), l ≠ [] → (stableSort le l).head?.isSome = true
  | [], h => absurd rfl h
  | x :: xs, _ => by
    rw [stableSort]
    cases hs : stableSort le xs with
    | nil => simp [sortInsert]
    | cons y ys =>
      rw [sortInsert]
      by_cases hle : le x y
      · simp [hle]
      · simp [hle]

theorem planRefinerM_fst_of_hit (target : PlannerTarget) (config : PlannerConfig)
    (cache : PlanCache) (r : PlannerResult)
    (h1 : cacheGet cache
      (cacheKey config.mode target (config.maxDepth.getD (defaultMaxDepth config.mode)))
      = some r) :
    planRefinerM target config cache = (.ok r, cache) := by
  simp [planRefinerM, h1]

theorem planRefinerM_of_miss_none (target : PlannerTarget) (config : PlannerConfig)
    (cache : PlanCache)
    (h1 : cacheGet cache
      (cacheKey config.mode target (config.maxDepth.getD (defaultMaxDepth config.mode)))
      = none)
    (h2 : config.canonicalIndex target.itemId = none) :
    planRefinerM target config cache
      = (.error (.missingCanonicalRecipe target.itemId), cache) := by
  simp [planRefinerM, h1, h2]

theorem planRefinerM_of_miss_nil (target : PlannerTarget) (config : PlannerConfig)
    (cache : PlanCache)
    (h1 : cacheGet cache
      (cacheKey config.mode target (config.maxDepth.getD (defaultMaxDepth config.mode)))
      = none)
    (h2 : config.canonicalIndex target.itemId = some []) :
    planRefinerM target config cache
      = (.error (.missingCanonicalRecipe target.itemId), cache) := by
  simp [planRefinerM, h1, h2]

theorem planRefinerM_of_sel_error (target : PlannerTarget) (config : PlannerConfig)
    (cache : PlanCache) (options : List CanonicalRecipe) (e : PlanError)
    (h1 : cacheGet cache
      (cacheKey config.mode target (config.maxDepth.getD (defaultMaxDepth config.mode)))
      = none)
    (h2 : config.canonicalIndex target.itemId = some options)
    (h3 : options ≠ [])
    (h4 : selectRecipe options target.recipeId = .error e) :
    planRefinerM target config cache = (.error e, cache) := by
  simp [planRefinerM, h1, h2, h3, h4]

theorem planRefinerM_of_sel_ok (target : PlannerTarget) (config : PlannerConfig)
    (cache : PlanCache) (options : List CanonicalRecipe) (recipe : CanonicalRecipe)
    (h1 : cacheGet cache
      (cacheKey config.mode target (config.maxDepth.getD (defaultMaxDepth config.mode)))
      = none)
    (h2 : config.canonicalIndex target.itemId = some options)
    (h3 : options ≠ [])
    (h4 : selectRecipe options target.recipeId = .ok recipe) :
    planRefinerM target config cache
      = (.ok (match config.mode with
          | .strict => planStrict recipe target.quantity config.canonicalIndex config.categories
          | .synthesis => planSynthesis recipe target.quantity config.canonicalIndex
              config.categories (config.maxDepth.getD (defaultMaxDepth config.mode))),
        cacheSet cache
          (cacheKey config.mode target (config.maxDepth.getD (defaultMaxDepth config.mode)))
          (match config.mode with
          | .strict => planStrict recipe target.quantity config.canonicalIndex config.categories
          | .synthesis => planSynthesis recipe target.quantity config.canonicalIndex
              config.categories (config.maxDepth.getD (defaultMaxDepth config.mode)))) := by
  simp [planRefinerM, h1, h2, h3, h4]

theorem selectRecipe_ne_nil_not_missing (options : List CanonicalRecipe)
    (recipeId : Option String) (h : options ≠ []) (itemId : String) :
    selectRecipe options recipeId ≠ .error (.missingCanonicalRecipe itemId) := by
  unfold selectRecipe
  cases recipeId with
  | none =>
    cases hh : (stableSort recipeSortLE options).head? with
    | none =>
      have := stableSort_head?_of_ne_nil recipeSortLE options h
      rw [hh] at this
      simp at this
    | some r => simp [hh]
  | some rid =>
    cases hf : options.find? (fun r => r.id == rid) with
    | none => simp [hf]
    | some m => simp [hf]

/-- Claim C7 (amended): when the cache has no entry for the call key,
`planRefiner` raises `MissingCanonicalRecipeError(target.itemId)` if
and only if the target item has an empty candidate list in the index;
and a pinned recipe id matching none of a non-empty candidate list
raises the distinct generic dataset error instead. -/
theorem missing_recipe_iff_C7 (target : PlannerTarget) (config : PlannerConfig)
    (cache : PlanCache)
    (hmiss : cacheGet cache
      (cacheKey config.mode target (config.maxDepth.getD (defaultMaxDepth config.mode)))
      = none) :
    ((planRefinerM target config cache).1
        = .error (.missingCanonicalRecipe target.itemId) ↔
      (config.canonicalIndex target.itemId).getD [] = []) ∧
    (∀ rid, target.recipeId = some rid →
      (∀ r ∈ (config.canonicalIndex target.itemId).getD [], r.id ≠ rid) →
      (config.canonicalIndex target.itemId).getD [] ≠ [] →
      (planRefinerM target config cache).1 =
        .error (.genericError
          ("Recipe " ++ rid ++ " is not present in the canonical dataset"))) := by
  cases hidx : config.canonicalIndex target.itemId with
  | none =>
    rw [planRefinerM_of_miss_none target config cache hmiss hidx]
    exact ⟨by simp, fun rid hrid hnone hne => absurd rfl hne⟩
  | some options =>
    cases hops : options with
    | nil =>
      rw [planRefinerM_of_miss_nil target config cache hmiss (hops ▸ hidx)]
      exact ⟨by simp, fun rid hrid hnone hne => absurd rfl hne⟩
    | cons o os =>
      have hne : (o :: os : List CanonicalRecipe) ≠ [] := by simp
      constructor
      · constructor
        · intro h
          exfalso
          rcases hsel : selectRecipe (o :: os) target.recipeId with e | rec
          · rw [planRefinerM_of_sel_error target config cache (o :: os) e hmiss
              (hops ▸ hidx) hne hsel] at h
            simp only [Except.error.injEq] at h
            exact selectRecipe_ne_nil_not_missing (o :: os) target.recipeId hne
              target.itemId (hsel.trans (by rw [h]))
          · rw [planRefinerM_of_sel_ok target config cache (o :: os) rec hmiss
              (hops ▸ hidx) hne hsel] at h
            simp at h
        · intro h
          simp at h
      · intro rid hrid hnone _
        have hf : (o :: os).find? (fun r => r.id == rid) = none := by
          rw [List.find?_eq_none]
          intro x hx
          simpa using hnone x hx
        have hsel : selectRecipe (o :: os) target.recipeId
            = .error (.genericError
              ("Recipe " ++ rid ++ " is not present in the canonical dataset")) := by
          rw [hrid]
          simp [selectRecipe, hf]
        rw [planRefinerM_of_sel_error target config cache (o :: os) _ hmiss
          (hops ▸ hidx) hne hsel]

/-- Concrete instance discharging the hypotheses of
`missing_recipe_iff_C7`: an empty cache and an index with no entry for
the target. -/
theorem missing_recipe_iff_C7_witness :
    (cacheGet []
        (cacheKey RefinerPlannerMode.strict ⟨"nowhere", 1, none⟩
          ((none : Option Nat).getD (defaultMaxDepth RefinerPlannerMode.strict))) = none) ∧
    ((planRefinerM ⟨"nowhere", 1, none⟩ ⟨.strict, fun _ => none, noCategories, none⟩ []).1
        = .error (.missingCanonicalRecipe "nowhere") ↔
      (((fun _ => none : CanonicalIndex)) "nowhere").getD [] = []) :=
  ⟨by decide,
    (missing_recipe_iff_C7 ⟨"nowhere", 1, none⟩ ⟨.strict, fun _ => none, noCategories, none⟩ []
      (by decide)).1⟩

/-- A cached result used by the cache counterexamples: a previously
computed plan for `itemA`. -/
def cachedResultA : PlannerResult :=
  ⟨.strict, 1, 1, 10, [⟨cycleRecipeA, 0, 1, 10, 1, [⟨"itemB", 1⟩]⟩], [⟨"itemB", 1⟩], "recA"⟩

/-- A cache already holding an entry for the strict `itemA` key. -/
def warmCache : PlanCache :=
  [(cacheKey .strict ⟨"itemA", 1, none⟩ 0, cachedResultA)]

/-- A configuration whose index has no candidates at all. -/
def emptyIndexConfig : PlannerConfig := ⟨.strict, fun _ => none, noCategories, none⟩

/-- Counterexample to claim C7 as stated: with a warm cache,
`planRefiner` returns a plan for a target whose candidate list is
empty, so the raised-iff-empty equivalence fails (the cache is
consulted before the candidate-list check). -/
theorem missing_recipe_iff_C7_counterexample :
    ¬ (((planRefinerM ⟨"itemA", 1, none⟩ emptyIndexConfig warmCache).1
          = .error (.missingCanonicalRecipe "itemA")) ↔
        ((emptyIndexConfig.canonicalIndex "itemA").getD [] = [])) := by
  decide

/-- Claim C10: the cache key contains only mode, target item id,
quantity, pinned recipe id (or `auto`) and the resolved depth limit —
not the catalog.  Hence a second call with the same key components but
a different canonical index or category map (and no cache clear in
between) is served from the cache: it returns the first call's value
even when the second index has no candidates for the target. -/
theorem cache_key_omits_catalog_C10 (target : PlannerTarget)
    (config1 config2 : PlannerConfig) (cache : PlanCache) (r : PlannerResult)
    (hmode : config1.mode = config2.mode) (hdepth : config1.maxDepth = config2.maxDepth)
    (h1 : (planRefinerM target config1 cache).1 = .ok r) :
    (planRefinerM target config2 (planRefinerM target config1 cache).2).1 = .ok r := by
  have hkey : cacheKey config2.mode target (config2.maxDepth.getD (defaultMaxDepth config2.mode))
      = cacheKey config1.mode target (config1.maxDepth.getD (defaultMaxDepth config1.mode)) := by
    rw [hmode, hdepth]
  cases hget : cacheGet cache
      (cacheKey config1.mode target (config1.maxDepth.getD (defaultMaxDepth config1.mode))) with
  | some cached =>
    rw [planRefinerM_fst_of_hit target config1 cache cached hget] at h1 ⊢
    simp only [Except.ok.injEq] at h1
    rw [planRefinerM_fst_of_hit target config2 cache cached (by rw [hkey]; exact hget), h1]
  | none =>
    cases hidx : config1.canonicalIndex target.itemId with
    | none =>
      rw [planRefinerM_of_miss_none target config1 cache hget hidx] at h1
      cases h1
    | some options =>
      cases hops : options with
      | nil =>
        rw [planRefinerM_of_miss_nil target config1 cache hget (hops ▸ hidx)] at h1
        cases h1
      | cons o os =>
        have hne : (o :: os : List CanonicalRecipe) ≠ [] := by simp
        rcases hsel : selectRecipe (o :: os) target.recipeId with e | rec
        · rw [planRefinerM_of_sel_error target config1 cache (o :: os) e hget
            (hops ▸ hidx) hne hsel] at h1
          cases h1
        · have heq := planRefinerM_of_sel_ok target config1 cache (o :: os) rec hget
            (hops ▸ hidx) hne hsel
          rw [heq] at h1 ⊢
          simp only [Except.ok.injEq] at h1
          have hhit : cacheGet
              (cacheSet cache
                (cacheKey config1.mode target
                  (config1.maxDepth.getD (defaultMaxDepth config1.mode)))
                (match config1.mode with
                | .strict =>
                  planStrict rec target.quantity config1.canonicalIndex config1.categories
                | .synthesis => planSynthesis rec target.quantity config1.canonicalIndex
                    config1.categories (config1.maxDepth.getD (defaultMaxDepth config1.mode))))
              (cacheKey config2.mode target
                (config2.maxDepth.getD (defaultMaxDepth config2.mode)))
              = some (match config1.mode with
                | .strict =>
                  planStrict rec target.quantity config1.canonicalIndex config1.categories
                | .synthesis => planSynthesis rec target.quantity config1.canonicalIndex
                    config1.categories
                    (config1.maxDepth.getD (defaultMaxDepth config1.mode))) := by
            rw [hkey]
            exact cacheGet_cacheSet_self _ _ _
          rw [planRefinerM_fst_of_hit target config2 _ _ hhit, h1]

/-- Concrete instance discharging the hypotheses of
`cache_key_omits_catalog_C10`: the first call plans `itemA` against the
cyclic catalog in strict mode; the second call uses an index with no
candidates at all yet still returns the first result. -/
theorem cache_key_omits_catalog_C10_witness :
    ((⟨.strict, cycleIndex, noCategories, none⟩ : PlannerConfig).mode
        = emptyIndexConfig.mode ∧
      (⟨.strict, cycleIndex, noCategories, none⟩ : PlannerConfig).maxDepth
        = emptyIndexConfig.maxDepth ∧
      (planRefinerM ⟨"itemA", 1, none⟩ ⟨.strict, cycleIndex, noCategories, none⟩ []).1
        = .ok cachedResultA) ∧
    (planRefinerM ⟨"itemA", 1, none⟩ emptyIndexConfig
        (planRefinerM ⟨"itemA", 1, none⟩ ⟨.strict, cycleIndex, noCategories, none⟩ []).2).1
      = .ok cachedResultA :=
  ⟨⟨rfl, rfl, by decide⟩,
    cache_key_omits_catalog_C10 ⟨"itemA", 1, none⟩
      ⟨.strict, cycleIndex, noCategories, none⟩ emptyIndexConfig [] cachedResultA
      rfl rfl (by decide)⟩

/-! ## Claim C2: clone reference structure -/

theorem cloneInputsH_snd (n : Nat) (inputs : List InputObjH) :
    (cloneInputsH n inputs).2 = n + inputs.length := rfl

theorem cloneInputsH_view (n : Nat) (inputs : List InputObjH) :
    (cloneInputsH n inputs).1.map inputView = inputs.map inputView := by
  unfold cloneInputsH
  simp only [List.map_map]
  have : ∀ p : Nat × InputObjH, inputView { p.2 with addr := n + p.1 } = inputView p.2 :=
    fun p => rfl
  calc (inputs.enum.map (fun p => inputView { p.2 with addr := n + p.1 }))
      = inputs.enum.map (fun p => inputView p.2) := List.map_congr_left (fun p _ => rfl)
    _ = (inputs.enum.map Prod.snd).map inputView := by rw [List.map_map]; rfl
    _ = inputs.map inputView := by rw [List.enum_map_snd]

theorem cloneInputsH_addr_ge (n : Nat) (inputs : List InputObjH) :
    ∀ a ∈ (cloneInputsH n inputs).1.map (fun i => i.addr), n ≤ a := by
  unfold cloneInputsH
  intro a ha
  simp only [List.map_map, List.mem_map] at ha
  rcases ha with ⟨p, _, rfl⟩
  exact Nat.le_add_right n p.1

theorem cloneStepH_snd_ge (n : Nat) (s : StepObjH) : n ≤ (cloneStepH n s).2 := by
  simp only [cloneStepH, cloneInputsH_snd]
  omega

theorem cloneStepH_recipeAddr (n : Nat) (s : StepObjH) :
    (cloneStepH n s).1.recipeAddr = s.recipeAddr := rfl

theorem cloneStepH_view (n : Nat) (s : StepObjH) :
    stepView (cloneStepH n s).1 = stepView s := by
  simp only [cloneStepH, stepView]
  simp [cloneInputsH_view]

theorem cloneStepH_own_bounds (n : Nat) (s : StepObjH) :
    ∀ a ∈ stepOwnAddrs (cloneStepH n s).1, n ≤ a := by
  simp only [cloneStepH, stepOwnAddrs]
  intro a ha
  simp only [List.mem_cons] at ha
  rcases ha with rfl | rfl | ha
  · have := cloneInputsH_snd n s.inputs
    omega
  · have := cloneInputsH_snd n s.inputs
    omega
  · exact cloneInputsH_addr_ge n s.inputs a ha

theorem cloneStepsH_snd_ge : ∀ (n : Nat) (steps : List StepObjH),
    n ≤ (cloneStepsH n steps).2
  | _, [] => Nat.le_refl _
  | n, s :: rest => by
    rw [cloneStepsH]
    exact Nat.le_trans (cloneStepH_snd_ge n s) (cloneStepsH_snd_ge (cloneStepH n s).2 rest)

theorem cloneStepsH_recipeAddrs : ∀ (n : Nat) (steps : List StepObjH),
    (cloneStepsH n steps).1.map (fun s => s.recipeAddr) = steps.map (fun s => s.recipeAddr)
  | _, [] => rfl
  | n, s :: rest => by
    rw [cloneStepsH]
    simp only [List.map_cons]
    rw [cloneStepH_recipeAddr, cloneStepsH_recipeAddrs (cloneStepH n s).2 rest]

theorem cloneStepsH_view : ∀ (n : Nat) (steps : List StepObjH),
    (cloneStepsH n steps).1.map stepView = steps.map stepView
  | _, [] => rfl
  | n, s :: rest => by
    rw [cloneStepsH]
    simp only [List.map_cons]
    rw [cloneStepH_view, cloneStepsH_view (cloneStepH n s).2 rest]

theorem cloneStepsH_own_bounds : ∀ (n : Nat) (steps : List StepObjH),
    ∀ a ∈ ((cloneStepsH n steps).1.map stepOwnAddrs).flatten, n ≤ a
  | _, [], a, ha => by simp [cloneStepsH] at ha
  | n, s :: rest, a, ha => by
    rw [cloneStepsH] at ha
    simp only [List.map_cons, List.flatten_cons, List.mem_append] at ha
    rcases ha with ha | ha
    · exact cloneStepH_own_bounds n s a ha
    · exact Nat.le_trans (cloneStepH_snd_ge n s)
        (cloneStepsH_own_bounds (cloneStepH n s).2 rest a ha)

theorem cloneResultH_view (n : Nat) (r : ResultObjH) :
    resultView (cloneResultH n r).1 = resultView r := by
  simp only [cloneResultH, resultView]
  simp [cloneStepsH_view, cloneInputsH_view]

theorem cloneResultH_recipeAddrs (n : Nat) (r : ResultObjH) :
    resultRecipeAddrs (cloneResultH n r).1 = resultRecipeAddrs r := by
  simp only [cloneResultH, resultRecipeAddrs]
  simp [cloneStepsH_recipeAddrs]

theorem cloneResultH_own_ge (n : Nat) (r : ResultObjH) :
    ∀ a ∈ resultOwnAddrs (cloneResultH n r).1, n ≤ a := by
  simp only [cloneResultH, resultOwnAddrs]
  intro a ha
  have hs := cloneStepsH_snd_ge n r.steps
  have hb := cloneInputsH_snd ((cloneStepsH n r.steps).2 + 1) r.baseMaterials
  simp only [List.mem_cons, List.mem_append] at ha
  rcases ha with rfl | rfl | rfl | ha | ha
  · omega
  · omega
  · omega
  · exact cloneStepsH_own_bounds n r.steps a ha
  · have := cloneInputsH_addr_ge ((cloneStepsH n r.steps).2 + 1) r.baseMaterials a ha
    omega

/-- Claim C2 (amended): on the heap model, `cloneResult` returns a
value-equal result whose own objects (result, arrays, step objects,
input and base-material entry objects) are all freshly allocated —
mutating them cannot affect the cached original — but every step's
nested `recipe` object is shared by reference with the original, so a
returned plan is not a full deep copy. -/
theorem clone_shares_recipes_C2 (r : ResultObjH) (n : Nat)
    (hfresh : ∀ a ∈ resultAllAddrs r, a < n) :
    resultView (cloneResultH n r).1 = resultView r ∧
    resultRecipeAddrs (cloneResultH n r).1 = resultRecipeAddrs r ∧
    ∀ a ∈ resultOwnAddrs (cloneResultH n r).1, a ∉ resultAllAddrs r := by
  refine ⟨cloneResultH_view n r, cloneResultH_recipeAddrs n r, fun a ha hmem => ?_⟩
  have h1 := cloneResultH_own_ge n r a ha
  have h2 := hfresh a hmem
  omega

/-- The sample cached result of the counterexample: one step whose
recipe object lives at address 3, inputs entry at 5, base entry at 7. -/
def sampleResultH : ResultObjH :=
  ⟨0, .strict, 1, 1, 10, 1, [⟨2, 3, 0, 1, 10, 1, 4, [⟨5, "iron", 2⟩]⟩], 6, [⟨7, "iron", 2⟩], "recX"⟩

/-- Counterexample to claim C2 as stated: the clone of `sampleResultH`
from fresh address 100 still reaches the original recipe object at
address 3, so clone and cache are not reference-disjoint and mutating
the step's nested recipe through one mutates the other. -/
theorem clone_shares_recipes_C2_counterexample :
    ¬ (∀ a ∈ resultAllAddrs (cloneResultH 100 sampleResultH).1,
        a ∉ resultAllAddrs sampleResultH) := by
  decide

/-- Concrete instance discharging the hypothesis of
`clone_shares_recipes_C2` at `sampleResultH` and counter 100. -/
theorem clone_shares_recipes_C2_witness :
    (∀ a ∈ resultAllAddrs sampleResultH, a < 100) ∧
    (resultView (cloneResultH 100 sampleResultH).1 = resultView sampleResultH ∧
      resultRecipeAddrs (cloneResultH 100 sampleResultH).1 = resultRecipeAddrs sampleResultH ∧
      ∀ a ∈ resultOwnAddrs (cloneResultH 100 sampleResultH).1,
        a ∉ resultAllAddrs sampleResultH) :=
  ⟨by decide, clone_shares_recipes_C2 sampleResultH 100 (by decide)⟩

/-! ## Claim C8: the layout scorer against its reference definition -/

/-- The in-bounds orthogonal neighbour slot indices of `index`
(up/down/left/right, bounds-checked, no wraparound). -/
def neighbourIndices (grid : PlannerGrid) (index : Nat) : List Nat :=
  let row := index / grid.cols
  let col := index % grid.cols
  neighbourOffsets.filterMap (fun d =>
    let nr := (row : Int) + d.1
    let nc := (col : Int) + d.2
    if nr < 0 ∨ (grid.rows : Int) ≤ nr ∨ nc < 0 ∨ (grid.cols : Int) ≤ nc then none
    else some (nr.toNat * grid.cols + nc.toNat))

/-- Slot contribution of the reference scorer exactly as claim C8
words it: the adjacency weight counts only for neighbours that
themselves hold a recognized module (one present in the module map). -/
def referenceContributionRecognized (grid : PlannerGrid) (modules : ModuleMap)
    (index : Nat) (slot : PlannerSlot) : JsNum :=
  match slot.moduleId with
  | none => 0
  | some mid =>
    match moduleMapGet modules mid with
    | none => 0
    | some module =>
      let adjSum := (neighbourIndices grid index).foldl (fun acc nidx =>
        match (grid.slots.getD nidx emptySlot).moduleId with
        | none => acc
        | some nid =>
          match moduleMapGet modules nid with
          | none => acc
          | some _ => acc + adjacencyGet module.adjacency nid) (0 : JsNum)
      let total := module.baseValue + adjSum
      if slot.supercharged then total * module.superchargeMultiplier else total

/-- The reference scorer of claim C8 (recognized neighbours only). -/
def referenceScoreRecognized (grid : PlannerGrid) (modules : ModuleMap) : Int :=
  jsRound ((grid.slots.enum.map
    (fun p => referenceContributionRecognized grid modules p.1 p.2)).sum)

/-- Slot contribution of the amended reference definition: the
adjacency weight counts for every in-bounds neighbour holding any
module id, whether or not that id is in the module map. -/
def referenceContributionAny (grid : PlannerGrid) (modules : ModuleMap)
    (index : Nat) (slot : PlannerSlot) : JsNum :=
  match slot.moduleId with
  | none => 0
  | some mid =>
    match moduleMapGet modules mid with
    | none => 0
    | some module =>
      let adjSum := (neighbourIndices grid index).foldl (fun acc nidx =>
        match (grid.slots.getD nidx emptySlot).moduleId with
        | none => acc
        | some nid => acc + adjacencyGet module.adjacency nid) (0 : JsNum)
      let total := module.baseValue + adjSum
      if slot.supercharged then total * module.superchargeMultiplier else total

/-- The amended reference scorer. -/
def referenceScoreAny (grid : PlannerGrid) (modules : ModuleMap) : Int :=
  jsRound ((grid.slots.enum.map
    (fun p => referenceContributionAny grid modules p.1 p.2)).sum)

theorem foldl_filterMap {α β γ : Type} (h : α → Option β) (step : γ → β → γ) :
    ∀ (l : List α) (init : γ),
      (l.filterMap h).foldl step init
        = l.foldl (fun acc d =>
            match h d with
            | none => acc
            | some b => step acc b) init
  | [], _ => rfl
  | x :: xs, init => by
    rw [List.filterMap_cons, List.foldl_cons]
    cases hx : h x with
    | none => simpa [hx] using foldl_filterMap h step xs init
    | some b => simpa [hx] using foldl_filterMap h step xs (step init b)

theorem slotContribution_eq_any (grid : PlannerGrid) (modules : ModuleMap) (index : Nat) :
    slotContribution grid modules index
      = referenceContributionAny grid modules index (grid.slots.getD index emptySlot) := by
  cases hmid : (grid.slots.getD index emptySlot).moduleId with
  | none => simp only [slotContribution, referenceContributionAny, hmid]
  | some mid =>
    cases hmod : moduleMapGet modules mid with
    | none => simp only [slotContribution, referenceContributionAny, hmid, hmod]
    | some module =>
      simp only [slotContribution, referenceContributionAny, neighbourIndices, hmid, hmod]
      rw [foldl_filterMap]
      rcongr acc d
      all_goals
        by_cases hcond : (((index / grid.cols : Nat) : Int) + d.1 < 0
            ∨ (grid.rows : Int) ≤ ((index / grid.cols : Nat) : Int) + d.1
            ∨ ((index % grid.cols : Nat) : Int) + d.2 < 0
            ∨ (grid.cols : Int) ≤ ((index % grid.cols : Nat) : Int) + d.2)
        · simp only [if_pos hcond]
        · simp only [if_neg hcond]

theorem enumMap_eq_rangeMap {β : Type} (l : List PlannerSlot) (F : Nat → PlannerSlot → β) :
    l.enum.map (fun p => F p.1 p.2)
      = (List.range l.length).map (fun i => F i (l.getD i emptySlot)) := by
  apply List.ext_getElem
  · simp
  · intro i h1 h2
    have hi : i < l.length := by simpa using h2
    simp [List.getElem_enum, List.getElem_range, List.getElem?_eq_getElem hi]

/-- Claim C8 (amended): the implementation scorer agrees everywhere
with the reference definition in which the adjacency weight is added
for every in-bounds neighbour holding any module id (recognized or
not); and the two concrete examples of the claim score 200 and 255. -/
theorem layout_scorer_C8 :
    (∀ (grid : PlannerGrid) (modules : ModuleMap),
      scorePlannerGrid grid modules = referenceScoreAny grid modules) ∧
    scorePlannerGrid ⟨1, 1, [⟨"slot-0", "tech", true, some "sc"⟩]⟩
        [("sc", ⟨"sc", "SC", "ship", "tech", ⟨100, 1⟩, [], ⟨2, 1⟩, []⟩)] = 200 ∧
    scorePlannerGrid
        ⟨2, 2, [⟨"slot-0", "tech", false, some "alpha"⟩,
          ⟨"slot-1", "tech", false, some "beta"⟩,
          ⟨"slot-2", "tech", false, none⟩, ⟨"slot-3", "tech", false, none⟩]⟩
        [("alpha", ⟨"alpha", "Alpha", "ship", "tech", ⟨100, 1⟩, [("beta", ⟨75, 1⟩)], ⟨1, 1⟩, []⟩),
         ("beta", ⟨"beta", "Beta", "ship", "tech", ⟨80, 1⟩, [], ⟨1, 1⟩, []⟩)] = 255 := by
  refine ⟨fun grid modules => ?_, by decide, by decide⟩
  unfold scorePlannerGrid referenceScoreAny
  congr 1
  rw [enumMap_eq_rangeMap grid.slots (fun i slot => referenceContributionAny grid modules i slot)]
  refine congrArg List.sum ?_
  exact List.map_congr_left (fun i _ => slotContribution_eq_any grid modules i)

/-- The grid of the C8 counterexample: `alpha` (base 10, adjacency
entry 50 for the id `ghost`) next to a slot holding the id `ghost`,
which is not in the module map. -/
def ghostGrid : PlannerGrid :=
  ⟨1, 2, [⟨"slot-0", "tech", false, some "alpha"⟩, ⟨"slot-1", "tech", false, some "ghost"⟩]⟩

def ghostModules : ModuleMap :=
  [("alpha", ⟨"alpha", "Alpha", "ship", "tech", ⟨10, 1⟩, [("ghost", ⟨50, 1⟩)], ⟨1, 1⟩, []⟩)]

/-- Counterexample to claim C8 as stated: the implementation counts
the adjacency weight towards the unrecognized neighbour `ghost`
(scoring 60), the reference definition of the claim does not (scoring
10). -/
theorem layout_scorer_C8_counterexample :
    scorePlannerGrid ghostGrid ghostModules
      ≠ referenceScoreRecognized ghostGrid ghostModules := by
  decide

/-! ## Claim C1: optimizer monotonicity -/

theorem hillClimb_invariant (modules : ModuleMap) (idxs : List Nat) :
    ∀ (picks : List (Nat × Nat)) (st : PlannerGrid × Int),
      st.2 = scorePlannerGrid st.1 modules →
      ((picks.foldl (hillStep modules idxs) st).2
          = scorePlannerGrid (picks.foldl (hillStep modules idxs) st).1 modules
        ∧ st.2 ≤ (picks.foldl (hillStep modules idxs) st).2)
  | [], st, h => ⟨h, le_refl _⟩
  | p :: ps, st, h => by
    rw [List.foldl_cons]
    have hstep : (hillStep modules idxs st p).2
        = scorePlannerGrid (hillStep modules idxs st p).1 modules
        ∧ st.2 ≤ (hillStep modules idxs st p).2 := by
      simp only [hillStep]
      cases hi : idxs.get? p.1 with
      | none => exact ⟨h, le_refl _⟩
      | some i =>
        cases hj : idxs.get? p.2 with
        | none => exact ⟨h, le_refl _⟩
        | some j =>
          by_cases hp : p.1 = p.2
          · simp only [if_pos hp]
            exact ⟨h, le_refl _⟩
          · simp only [if_neg hp]
            by_cases hlt : st.2 < scorePlannerGrid (swapModuleIds st.1 i j) modules
            · simp only [if_pos hlt]
              exact ⟨trivial, le_of_lt hlt⟩
            · simp only [if_neg hlt]
              exact ⟨h, le_refl _⟩
    have ih := hillClimb_invariant modules idxs ps (hillStep modules idxs st p) hstep.1
    exact ⟨ih.1, le_trans hstep.2 ih.2⟩

/-- Claim C1 (amended): the score of the grid the optimizer returns is
at least the score of the greedy-reseeded grid — the hill climb never
regresses against its own greedy baseline.  It can regress against the
input grid (see the counterexample), because the optimizer first
clears every placement and reseeds greedily, and never compares
against the original arrangement. -/
theorem optimizer_monotonic_from_seed_C1 (planner : PlannerState) (modules : ModuleMap)
    (picks : List (Nat × Nat)) :
    scorePlannerGrid
        (greedyPlacement planner.grid
          (planner.grid.slots.filterMap (fun s => s.moduleId) ++ planner.benchModules)
          modules) modules
      ≤ scorePlannerGrid (suggestBestArrangement planner modules picks).grid modules := by
  simp only [suggestBestArrangement]
  by_cases hlen :
      (((greedyPlacement planner.grid
          (planner.grid.slots.filterMap (fun s => s.moduleId) ++ planner.benchModules)
          modules).slots.enum.filter (fun p => p.2.moduleId.isSome)).map
        (fun p => p.1)).length < 2
  · rw [if_pos hlen]
  · rw [if_neg hlen]
    have hinv := hillClimb_invariant modules
      (((greedyPlacement planner.grid
          (planner.grid.slots.filterMap (fun s => s.moduleId) ++ planner.benchModules)
          modules).slots.enum.filter (fun p => p.2.moduleId.isSome)).map (fun p => p.1))
      picks
      (greedyPlacement planner.grid
          (planner.grid.slots.filterMap (fun s => s.moduleId) ++ planner.benchModules)
          modules,
        scorePlannerGrid
          (greedyPlacement planner.grid
            (planner.grid.slots.filterMap (fun s => s.moduleId) ++ planner.benchModules)
            modules) modules)
      rfl
    exact hinv.1 ▸ hinv.2

/-- The module map of the C1 counterexample: `alpha` carries a large
negative adjacency weight towards `beta`. -/
def negAdjModules : ModuleMap :=
  [("alpha", ⟨"alpha", "Alpha", "ship", "tech", ⟨100, 1⟩, [("beta", ⟨-1000, 1⟩)], ⟨1, 1⟩, []⟩),
   ("beta", ⟨"beta", "Beta", "ship", "tech", ⟨100, 1⟩, [], ⟨1, 1⟩, []⟩)]

/-- The planner state of the C1 counterexample: `alpha` placed alone
(score 100), `beta` waiting on the bench. -/
def negAdjState : PlannerState :=
  ⟨"ship", ⟨1, 2, [⟨"slot-0", "tech", false, some "alpha"⟩, ⟨"slot-1", "tech", false, none⟩]⟩,
    ["beta"]⟩

/-- Counterexample to claim C1 as stated: on `negAdjState` the input
grid scores 100, but the optimizer reseeds both modules adjacently and
returns a grid scoring -800, so the returned score is not at least the
input score (here with zero hill-climb iterations; every iteration
count fails alike since swapping the two modules keeps them adjacent). -/
theorem optimizer_monotonic_C1_counterexample :
    ¬ (scorePlannerGrid negAdjState.grid negAdjModules
        ≤ scorePlannerGrid (suggestBestArrangement negAdjState negAdjModules []).grid
            negAdjModules) := by
  decide

/-! ## Claim C9: module pool conservation -/

/-- The module ids placed in a slot list, in slot order. -/
def placedIds (slots : List PlannerSlot) : List String :=
  slots.filterMap (fun s => s.moduleId)

theorem count_ite_le {α : Type} [DecidableEq α] (xs : List α) (a b : α) (hb : b ∈ xs) :
    (if (b == a) = true then 1 else 0) ≤ List.count a xs := by
  by_cases h : b = a
  · subst h
    simp only [beq_self_eq_true, if_pos]
    exact List.count_pos_iff.mpr hb
  · simp [h]

theorem swap_entries_perm {α : Type} [DecidableEq α] (xs : List α) (i j : Nat)
    (hi : i < xs.length) (hj : j < xs.length) :
    ((xs.set i (xs.get ⟨j, hj⟩)).set j (xs.get ⟨i, hi⟩)).Perm xs := by
  rw [List.perm_iff_count]
  intro a
  have hlen2 : j < (xs.set i (xs.get ⟨j, hj⟩)).length := by
    rw [List.length_set]; exact hj
  rw [List.count_set _ _ _ _ hlen2, List.count_set _ _ _ _ hi]
  have hxi : xs[i] = xs.get ⟨i, hi⟩ := rfl
  have hxj : xs[j] = xs.get ⟨j, hj⟩ := rfl
  have hget : (xs.set i (xs.get ⟨j, hj⟩))[j] = if i = j then xs.get ⟨j, hj⟩ else xs[j] :=
    List.getElem_set _
  have hA := count_ite_le xs a (xs.get ⟨i, hi⟩) (List.get_mem xs i hi)
  have hB := count_ite_le xs a (xs.get ⟨j, hj⟩) (List.get_mem xs j hj)
  rw [hget, hxi, hxj]
  by_cases hij : i = j
  · subst hij
    rw [if_pos rfl]
    by_cases hb : xs.get ⟨i, hi⟩ = a
    · have hb2 : xs.get ⟨i, hi⟩ = a := hb
      simp only [hb2, beq_self_eq_true, if_pos] at hA ⊢
      omega
    · simp [hb] at hA ⊢
      omega
  · rw [if_neg hij]
    by_cases hbi : xs.get ⟨i, hi⟩ = a <;> by_cases hbj : xs.get ⟨j, hj⟩ = a <;>
      simp [hbi, hbj] at hA hB ⊢ <;> omega

theorem swapModuleIds_placed_perm (g : PlannerGrid) (i j : Nat)
    (hi : i < g.slots.length) (hj : j < g.slots.length) :
    (placedIds (swapModuleIds g i j).slots).Perm (placedIds g.slots) := by
  have hgetDi : g.slots.getD i emptySlot = g.slots.get ⟨i, hi⟩ := List.getD_eq_getElem _ _ hi
  have hgetDj : g.slots.getD j emptySlot = g.slots.get ⟨j, hj⟩ := List.getD_eq_getElem _ _ hj
  unfold placedIds swapModuleIds
  simp only [hgetDi, hgetDj]
  have hmap : ∀ (l : List PlannerSlot),
      l.filterMap (fun s => s.moduleId) = (l.map (fun s => s.moduleId)).filterMap id := by
    intro l
    rw [List.filterMap_map]
    rfl
  rw [hmap, hmap g.slots]
  refine List.Perm.filterMap id ?_
  rw [List.map_set, List.map_set]
  have hmi : i < (g.slots.map (fun s => s.moduleId)).length := by
    rw [List.length_map]; exact hi
  have hmj : j < (g.slots.map (fun s => s.moduleId)).length := by
    rw [List.length_map]; exact hj
  have hvi : ({ g.slots.get ⟨i, hi⟩ with moduleId := (g.slots.get ⟨j, hj⟩).moduleId }).moduleId
      = (g.slots.map (fun s => s.moduleId)).get ⟨j, hmj⟩ := by
    simp [List.getElem_map]
  have hvj : ({ g.slots.get ⟨j, hj⟩ with moduleId := (g.slots.get ⟨i, hi⟩).moduleId }).moduleId
      = (g.slots.map (fun s => s.moduleId)).get ⟨i, hmi⟩ := by
    simp [List.getElem_map]
  rw [hvi, hvj]
  exact swap_entries_perm (g.slots.map (fun s => s.moduleId)) i j hmi hmj

theorem sortInsert_perm {α : Type} (le : α → α → Bool) (x : α) :
    ∀ (l : List α), (sortInsert le x l).Perm (x :: l)
  | [] => List.Perm.refl _
  | y :: ys => by
    rw [sortInsert]
    by_cases h : le x y
    · rw [if_pos h]
    · rw [if_neg h]
      exact (List.Perm.cons y (sortInsert_perm le x ys)).trans (List.Perm.swap x y ys)

theorem stableSort_perm {α : Type} (le : α → α → Bool) :
    ∀ (l : List α), (stableSort le l).Perm l
  | [] => List.Perm.refl _
  | x :: xs => (sortInsert_perm le x (stableSort le xs)).trans
      (List.Perm.cons x (stableSort_perm le xs))

theorem mem_placedIds_set (slots : List PlannerSlot) (t : Nat) (s1 : PlannerSlot) (x : String)
    (hx : x ∈ placedIds (slots.set t s1)) : s1.moduleId = some x ∨ x ∈ placedIds slots := by
  unfold placedIds at hx ⊢
  rw [List.mem_filterMap] at hx
  rcases hx with ⟨slot, hmem, heq⟩
  rcases List.mem_or_eq_of_mem_set hmem with h | rfl
  · exact Or.inr (List.mem_filterMap.mpr ⟨slot, h, heq⟩)
  · exact Or.inl heq

theorem mem_placedIds_cons (s : PlannerSlot) (xs : List PlannerSlot) (x : String) :
    x ∈ placedIds (s :: xs) ↔ s.moduleId = some x ∨ x ∈ placedIds xs := by
  unfold placedIds
  rw [List.filterMap_cons]
  cases hs : s.moduleId with
  | none => simp [hs]
  | some w =>
    simp only [List.mem_cons]
    constructor
    · rintro (rfl | h)
      · exact Or.inl rfl
      · exact Or.inr h
    · rintro (h | h)
      · exact Or.inl (Option.some_injective _ h).symm
      · exact Or.inr h

theorem nodup_placedIds_cons (s : PlannerSlot) (xs : List PlannerSlot)
    (h : (placedIds (s :: xs)).Nodup) : (placedIds xs).Nodup := by
  unfold placedIds at h ⊢
  rw [List.filterMap_cons] at h
  cases hs : s.moduleId with
  | none => rw [hs] at h; exact h
  | some w => rw [hs] at h; exact (List.nodup_cons.mp h).2

theorem nodup_placedIds_set (v : String) :
    ∀ (slots : List PlannerSlot) (t : Nat) (s1 : PlannerSlot),
      (placedIds slots).Nodup → s1.moduleId = some v → v ∉ placedIds slots →
      (placedIds (slots.set t s1)).Nodup
  | [], _, _, _, _, _ => by simp [placedIds]
  | x :: xs, 0, s1, hnd, hs1, hv => by
    rw [List.set_cons_zero]
    unfold placedIds
    rw [List.filterMap_cons, hs1]
    rw [List.nodup_cons]
    refine ⟨fun hmem => hv ((mem_placedIds_cons x xs v).mpr (Or.inr hmem)), ?_⟩
    exact nodup_placedIds_cons x xs hnd
  | x :: xs, t + 1, s1, hnd, hs1, hv => by
    rw [List.set_cons_succ]
    unfold placedIds
    rw [List.filterMap_cons]
    cases hx : x.moduleId with
    | none =>
      exact nodup_placedIds_set v xs t s1 (nodup_placedIds_cons x xs hnd)
        hs1 (fun hmem => hv ((mem_placedIds_cons x xs v).mpr (Or.inr hmem)))
    | some w =>
      rw [List.nodup_cons]
      constructor
      · intro hmem
        rcases mem_placedIds_set xs t s1 w hmem with h | h
        · have : w = v := Option.some_injective _ (hs1 ▸ h).symm
          exact hv ((mem_placedIds_cons x xs v).mpr (Or.inl (this ▸ hx)))
        · have hnd2 : (x.moduleId.toList ++ placedIds xs).Nodup := by
            unfold placedIds at hnd ⊢
            rw [List.filterMap_cons] at hnd
            cases hx2 : x.moduleId with
            | none => simpa [hx2] using hnd
            | some u => simpa [hx2] using hnd
          rw [hx] at hnd2
          simp only [Option.toList_some, List.singleton_append, List.nodup_cons] at hnd2
          exact hnd2.1 h
      · exact nodup_placedIds_set v xs t s1 (nodup_placedIds_cons x xs hnd)
          hs1 (fun hmem => hv ((mem_placedIds_cons x xs v).mpr (Or.inr hmem)))

theorem applyGreedy_mem (ordered : List (Nat × PlannerSlot)) :
    ∀ (pairs : List (Nat × String)) (slots : List PlannerSlot) (x : String),
      x ∈ placedIds (applyGreedyAssignments ordered slots pairs) →
      x ∈ pairs.map Prod.snd ∨ x ∈ placedIds slots
  | [], slots, x, hx => Or.inr hx
  | p :: rest, slots, x, hx => by
    rw [applyGreedyAssignments] at hx
    rcases applyGreedy_mem ordered rest _ x hx with h | h
    · exact Or.inl (List.mem_cons_of_mem _ h)
    · cases ht : ordered.get? p.1 with
      | none =>
        rw [ht] at h
        exact Or.inr h
      | some target =>
        rw [ht] at h
        rcases mem_placedIds_set _ _ _ x h with h2 | h2
        · have : x = p.2 := (Option.some_injective _ h2).symm
          exact Or.inl (this ▸ List.mem_cons_self _ _)
        · exact Or.inr h2

theorem applyGreedy_nodup (ordered : List (Nat × PlannerSlot)) :
    ∀ (pairs : List (Nat × String)) (slots : List PlannerSlot),
      (placedIds slots).Nodup → (pairs.map Prod.snd).Nodup →
      (∀ v ∈ pairs.map Prod.snd, v ∉ placedIds slots) →
      (placedIds (applyGreedyAssignments ordered slots pairs)).Nodup
  | [], slots, hnd, _, _ => hnd
  | p :: rest, slots, hnd, hvals, hfresh => by
    rw [applyGreedyAssignments]
    have hvals2 : (rest.map Prod.snd).Nodup := (List.nodup_cons.mp (by simpa using hvals)).2
    have hvhead : p.2 ∉ rest.map Prod.snd := (List.nodup_cons.mp (by simpa using hvals)).1
    cases ht : ordered.get? p.1 with
    | none =>
      refine applyGreedy_nodup ordered rest slots hnd hvals2 (fun v hv => ?_)
      exact hfresh v (List.mem_cons_of_mem _ hv)
    | some target =>
      have hset_nodup : (placedIds (slots.set target.1
          ({ slots.getD target.1 emptySlot with moduleId := some p.2 }))).Nodup :=
        nodup_placedIds_set p.2 slots target.1 _ hnd rfl
          (hfresh p.2 (by simp))
      refine applyGreedy_nodup ordered rest _ hset_nodup hvals2 (fun v hv hmem => ?_)
      rcases mem_placedIds_set _ _ _ v hmem with h2 | h2
      · have : v = p.2 := (Option.some_injective _ h2).symm
        exact hvhead (this ▸ hv)
      · exact hfresh v (List.mem_cons_of_mem _ hv) h2

theorem placedIds_cleared (slots : List PlannerSlot) :
    placedIds (slots.map (fun s => { s with moduleId := none })) = [] := by
  unfold placedIds
  rw [List.filterMap_map]
  rw [List.filterMap_eq_nil_iff]
  intro a _
  rfl

theorem greedyPlacement_placed (grid : PlannerGrid) (pool : List String)
    (modules : ModuleMap) (hpool : pool.Nodup) :
    (placedIds (greedyPlacement grid pool modules).slots).Nodup ∧
    (∀ x ∈ placedIds (greedyPlacement grid pool modules).slots, x ∈ pool) := by
  simp only [greedyPlacement]
  have hperm : (stableSort
      (fun a b => JsNum.jsLe (greedySortValue modules b) (greedySortValue modules a))
      pool).Perm pool := stableSort_perm _ pool
  have hsorted_nodup : (stableSort
      (fun a b => JsNum.jsLe (greedySortValue modules b) (greedySortValue modules a))
      pool).Nodup := hpool.perm hperm.symm
  have hvals : ((stableSort
      (fun a b => JsNum.jsLe (greedySortValue modules b) (greedySortValue modules a))
      pool).enum.map Prod.snd).Nodup := by
    rw [List.enum_map_snd]
    exact hsorted_nodup
  have hcleared := placedIds_cleared grid.slots
  constructor
  · refine applyGreedy_nodup _ _ _ ?_ hvals ?_
    · rw [hcleared]
      exact List.nodup_nil
    · intro v _
      rw [hcleared]
      exact List.not_mem_nil v
  · intro x hx
    rcases applyGreedy_mem _ _ _ x hx with h | h
    · rw [List.enum_map_snd] at h
      exact hperm.mem_iff.mp h
    · rw [hcleared] at h
      exact absurd h (List.not_mem_nil x)

theorem moduleSlotIndices_lt (g : PlannerGrid) :
    ∀ i ∈ (g.slots.enum.filter (fun p => p.2.moduleId.isSome)).map (fun p => p.1),
      i < g.slots.length := by
  intro i hi
  rw [List.mem_map] at hi
  rcases hi with ⟨p, hp, rfl⟩
  rw [List.mem_filter] at hp
  exact (List.mem_enum hp.1).1

theorem swapModuleIds_length (g : PlannerGrid) (i j : Nat) :
    (swapModuleIds g i j).slots.length = g.slots.length := by
  simp [swapModuleIds]

theorem hillClimb_placed (modules : ModuleMap) (idxs : List Nat) (baseLen : Nat)
    (hidx : ∀ i ∈ idxs, i < baseLen) :
    ∀ (picks : List (Nat × Nat)) (st : PlannerGrid × Int) (base : List String),
      st.1.slots.length = baseLen →
      (placedIds st.1.slots).Perm base →
      ((picks.foldl (hillStep modules idxs) st).1.slots.length = baseLen
        ∧ (placedIds (picks.foldl (hillStep modules idxs) st).1.slots).Perm base)
  | [], st, base, hlen, hperm => ⟨hlen, hperm⟩
  | p :: ps, st, base, hlen, hperm => by
    rw [List.foldl_cons]
    have hstep : (hillStep modules idxs st p).1.slots.length = baseLen
        ∧ (placedIds (hillStep modules idxs st p).1.slots).Perm base := by
      simp only [hillStep]
      cases hi : idxs.get? p.1 with
      | none => exact ⟨hlen, hperm⟩
      | some i =>
        cases hj : idxs.get? p.2 with
        | none => exact ⟨hlen, hperm⟩
        | some j =>
          have hi2 : i < st.1.slots.length := by
            rw [hlen]; exact hidx i (List.get?_mem hi)
          have hj2 : j < st.1.slots.length := by
            rw [hlen]; exact hidx j (List.get?_mem hj)
          by_cases hp : p.1 = p.2
          · simp only [if_pos hp]
            exact ⟨hlen, hperm⟩
          · simp only [if_neg hp]
            by_cases hlt : st.2 < scorePlannerGrid (swapModuleIds st.1 i j) modules
            · simp only [if_pos hlt]
              exact ⟨(swapModuleIds_length st.1 i j).trans hlen,
                (swapModuleIds_placed_perm st.1 i j hi2 hj2).trans hperm⟩
            · simp only [if_neg hlt]
              exact ⟨hlen, hperm⟩
    exact hillClimb_placed modules idxs baseLen hidx ps _ base hstep.1 hstep.2

theorem conservation_core (pool assigned : List String)
    (hpool : pool.Nodup) (hassigned : assigned.Nodup)
    (hsub : ∀ x ∈ assigned, x ∈ pool) :
    assigned.length + (pool.filter (fun id => !(assigned.contains id))).length
      = pool.length := by
  have hsplit := (List.filter_append_perm (fun id => assigned.contains id) pool).length_eq
  rw [List.length_append] at hsplit
  have hmemiff : ∀ x, (x ∈ pool.filter (fun id => assigned.contains id)) ↔ x ∈ assigned := by
    intro x
    rw [List.mem_filter]
    constructor
    · rintro ⟨_, hc⟩
      exact List.elem_iff.mp hc
    · intro hx
      exact ⟨hsub x hx, List.elem_iff.mpr hx⟩
  have hfn : (pool.filter (fun id => assigned.contains id)).Nodup := hpool.filter _
  have hfinset : (pool.filter (fun id => assigned.contains id)).toFinset
      = assigned.toFinset := by
    refine Finset.ext (fun x => ?_)
    rw [List.mem_toFinset, List.mem_toFinset]
    exact hmemiff x
  have hlenA : (pool.filter (fun id => assigned.contains id)).length = assigned.length := by
    rw [← List.toFinset_card_of_nodup hfn, ← List.toFinset_card_of_nodup hassigned, hfinset]
  omega

/-- Claim C9 (amended): when the module pool (placed ids followed by
the bench) contains no duplicate ids, the optimizer conserves it:
placed-after plus bench-after equals placed-before plus bench-before.
With duplicate ids the bench recomputation
`pool.filter(id => !placed.has(id))` collapses the duplicates and
modules are lost (see the counterexample). -/
theorem bench_conservation_C9 (planner : PlannerState) (modules : ModuleMap)
    (picks : List (Nat × Nat))
    (hnodup : (planner.grid.slots.filterMap (fun s => s.moduleId)
        ++ planner.benchModules).Nodup) :
    (placedIds (suggestBestArrangement planner modules picks).grid.slots).length
      + (suggestBestArrangement planner modules picks).benchModules.length
    = (placedIds planner.grid.slots).length + planner.benchModules.length := by
  have hbase := greedyPlacement_placed planner.grid
    (planner.grid.slots.filterMap (fun s => s.moduleId) ++ planner.benchModules) modules hnodup
  simp only [suggestBestArrangement]
  set pool := planner.grid.slots.filterMap (fun s => s.moduleId) ++ planner.benchModules
    with hpooldef
  set base := greedyPlacement planner.grid pool modules with hbasedef
  set idxs := (base.slots.enum.filter (fun p => p.2.moduleId.isSome)).map (fun p => p.1)
    with hidxdef
  set best := (if idxs.length < 2 then (base, scorePlannerGrid base modules)
    else picks.foldl (hillStep modules idxs) (base, scorePlannerGrid base modules))
    with hbestdef
  have hidx : ∀ i ∈ idxs, i < base.slots.length := by
    rw [hidxdef]
    exact moduleSlotIndices_lt base
  have hperm : (placedIds best.1.slots).Perm (placedIds base.slots) := by
    rw [hbestdef]
    by_cases hlen : idxs.length < 2
    · rw [if_pos hlen]
    · rw [if_neg hlen]
      exact (hillClimb_placed modules idxs base.slots.length hidx picks
        (base, scorePlannerGrid base modules) (placedIds base.slots) rfl
        (List.Perm.refl _)).2
  have hAnodup : (placedIds best.1.slots).Nodup := hbase.1.perm hperm.symm
  have hAsub : ∀ x ∈ placedIds best.1.slots, x ∈ pool :=
    fun x hx => hbase.2 x (hperm.mem_iff.mp hx)
  have hcore := conservation_core pool (placedIds best.1.slots) hnodup hAnodup hAsub
  have hlenpool : pool.length
      = (placedIds planner.grid.slots).length + planner.benchModules.length := by
    rw [hpooldef]
    exact List.length_append _ _
  exact hcore.trans hlenpool

/-- The state of the C9 counterexample: module id `x` both placed and
on the bench, with a single slot. -/
def dupPoolState : PlannerState :=
  ⟨"ship", ⟨1, 1, [⟨"slot-0", "tech", false, some "x"⟩]⟩, ["x"]⟩

/-- Counterexample to claim C9 as stated: starting from one placed `x`
and one benched `x` (pool size 2), the optimizer places one copy and
then filters the pool against the set of placed ids, which removes
both copies: placed-after plus bench-after is 1, not 2. -/
theorem bench_conservation_C9_counterexample :
    ¬ ((placedIds (suggestBestArrangement dupPoolState [] []).grid.slots).length
        + (suggestBestArrangement dupPoolState [] []).benchModules.length
      = (placedIds dupPoolState.grid.slots).length + dupPoolState.benchModules.length) := by
  decide

/-- A duplicate-free pool instance for the witness. -/
def distinctPoolState : PlannerState :=
  ⟨"ship", ⟨1, 1, [⟨"slot-0", "tech", false, some "x"⟩]⟩, ["y"]⟩

/-- Concrete instance discharging the hypothesis of
`bench_conservation_C9`: `x` placed and `y` benched are distinct, and
the pool of two modules is conserved. -/
theorem bench_conservation_C9_witness :
    (distinctPoolState.grid.slots.filterMap (fun s => s.moduleId)
        ++ distinctPoolState.benchModules).Nodup ∧
    (placedIds (suggestBestArrangement distinctPoolState [] []).grid.slots).length
        + (suggestBestArrangement distinctPoolState [] []).benchModules.length
      = (placedIds distinctPoolState.grid.slots).length
        + distinctPoolState.benchModules.length :=
  ⟨by decide, bench_conservation_C9 distinctPoolState [] [] (by decide)⟩
